import Mathlib

/-!
# Verification of `confluence-markdown-export.py`

A shallow embedding of the single-file Confluence-to-markdown exporter
(`src/confluence-markdown-export.py`) together with proofs settling the
frozen claims about its specification.

Strings are modelled as `List Char` (`Str`).  Python string/regex
primitives used by the source (`re.sub`, `str.replace`, `str.strip`,
`str.removesuffix`, `os.path.join`, `os.path.dirname`, `Path.parent`)
are given executable Lean counterparts.  The stateful exporter
(`Exporter.__dump_page`, `__dump_space`, `dump`) is embedded as explicit
state passing over a record holding the file system (an association
list), the seen-set, a trace of external events, and a counter feeding a
failure schedule for the three fallible external calls (download,
doc→docx conversion, docx→markdown conversion).
-/

namespace CME

/-- Strings of the source program, modelled as lists of characters. -/
abbrev Str := List Char

/-- Shorthand turning a Lean string literal into `Str`. -/
def str (s : String) : Str := s.toList

/-! ## Python / regex string primitives -/

/-- Character class of `re.sub("[\\\\/\\[\\] ]+", "-", ·)` (line 40):
    backslash, forward slash, square brackets, space. -/
def isSepClass (c : Char) : Bool :=
  c = '\\' || c = '/' || c = '[' || c = ']' || c = ' '

/-- ASCII whitespace, the characters matched by the regex `\s`
    (line 41, 44).  (Non-ASCII Unicode whitespace recognised by Python's
    `re` on `str` patterns is not modelled; such characters are treated
    as ordinary characters throughout.) -/
def isWsChar (c : Char) : Bool :=
  c = ' ' || c = '\t' || c = '\n' || c = '\r' || c = '\x0b' || c = '\x0c'

/-- Characters stripped by `page_title.strip("-. ")` (line 45). -/
def isStripChar (c : Char) : Bool :=
  c = '-' || c = '.' || c = ' '

/-- The character matched by `\.` (line 42). -/
def isDot (c : Char) : Bool := c = '.'

/-- The character matched by `-` (lines 43–44). -/
def isDash (c : Char) : Bool := c = '-'

/-- Worker for `runSub`: `inRun` records whether the previous character
    belonged to the run currently being collapsed. -/
def runSubGo (p : Char → Bool) (r : Char) : Bool → List Char → List Char
  | _, [] => []
  | inRun, c :: cs =>
    if p c then
      if inRun then runSubGo p r true cs else r :: runSubGo p r true cs
    else c :: runSubGo p r false cs

/-- Replace every maximal run of characters satisfying `p` by the single
    character `r`.  This is the semantics of `re.sub(cls+, r, s)` for a
    character class `cls`; it also coincides with `re.sub("\\.\\.+", ".", s)`
    and `re.sub("--+", "-", s)` because a run of length one is replaced
    by itself there (the replacement equals the run character). -/
def runSub (p : Char → Bool) (r : Char) (l : List Char) : List Char :=
  runSubGo p r false l

/-- `re.sub("-(-|\\s)+-", "-", ·)` helper: scanning the characters after
    the leading `-` and the first group character, remember the suffix
    following the most recent `-` seen inside the `(-|\s)` run (greedy
    matching with backtracking takes the last `-` of the run as the
    closing `-` of the pattern). -/
def lastDash : List Char → Option (List Char) → Option (List Char)
  | [], acc => acc
  | c :: cs, acc =>
    if c = '-' then lastDash cs (some cs)
    else if isWsChar c then lastDash cs acc
    else acc

/-- Characters matched by the group `(-|\s)` of the regex on line 44. -/
def isDashWs (c : Char) : Bool := c = '-' || isWsChar c

/-- Given the characters following a leading `-`, return the suffix after
    the full match of `(-|\s)+-`, if the regex `-(-|\s)+-` matches here:
    the first following character must be in the group class, and a `-`
    must occur later in the group-class run (the group needs at least one
    character before the closing `-`). -/
def findM5 : List Char → Option (List Char)
  | [] => none
  | c :: cs => if isDashWs c then lastDash cs none else none

/-- Fuelled scan for `re.sub("-(-|\\s)+-", "-", ·)` (line 44): at each
    position, if the pattern matches, emit `-` and continue after the
    match, else keep the character.  The fuel starts at the input length,
    which is sufficient because every step consumes at least one input
    character. -/
def sub5Go : Nat → List Char → List Char
  | _, [] => []
  | 0, l => l
  | f + 1, c :: cs =>
    if c = '-' then
      match findM5 cs with
      | some rest => '-' :: sub5Go f rest
      | none => c :: sub5Go f cs
    else c :: sub5Go f cs

/-- `re.sub("-(-|\\s)+-", "-", s)` (line 44). -/
def sub5 (l : List Char) : List Char := sub5Go l.length l

/-- `s.strip("-. ")` (line 45): drop the stripped characters from both
    ends. -/
def stripEnds (l : List Char) : List Char :=
  ((l.dropWhile isStripChar).reverse.dropWhile isStripChar).reverse

/-- `re.sub("[\\\\/\\[\\] ]+", "-", ·)` (line 40). -/
def sanStage1 (t : Str) : Str := runSub isSepClass '-' t

/-- `re.sub("\\s+", "-", ·)` (line 41). -/
def sanStage2 (t : Str) : Str := runSub isWsChar '-' (sanStage1 t)

/-- `re.sub("\\.\\.+", ".", ·)` (line 42). -/
def sanStage3 (t : Str) : Str := runSub isDot '.' (sanStage2 t)

/-- `re.sub("--+", "-", ·)` (line 43). -/
def sanStage4 (t : Str) : Str := runSub isDash '-' (sanStage3 t)

/-- `Exporter.__sanitize` (lines 39–46): the five `re.sub` passes
    followed by `strip("-. ")`. -/
def sanitize (t : Str) : Str :=
  stripEnds (sub5 (sanStage4 t))

/-- Fuelled worker for `str.replace(pat, repl)`: scan left to right,
    replacing each leftmost non-overlapping occurrence.  Fuel equal to
    the input length suffices for a non-empty pattern. -/
def replGo (pat repl : List Char) : Nat → List Char → List Char
  | _, [] => []
  | 0, l => l
  | f + 1, c :: cs =>
    if pat.isPrefixOf (c :: cs) then
      repl ++ replGo pat repl f ((c :: cs).drop pat.length)
    else c :: replGo pat repl f cs

/-- Python `s.replace(pat, repl)` for a non-empty pattern (every call in
    the source uses a non-empty pattern; the empty-pattern behaviour of
    Python, which inserts `repl` between all characters, is not
    modelled). -/
def replaceAll (pat repl s : List Char) : List Char :=
  if pat.isEmpty then s else replGo pat repl s.length s

/-- Python `s.removesuffix(pat)` (line 113). -/
def removeSuffix (pat s : List Char) : List Char :=
  if ¬ pat.isEmpty ∧ pat.isSuffixOf s then s.take (s.length - pat.length)
  else s

/-- Does `pat` occur as a contiguous substring of `s`? -/
def containsSub (pat : List Char) : List Char → Bool
  | [] => pat.isEmpty
  | c :: cs => pat.isPrefixOf (c :: cs) || containsSub pat cs

/-- `os.path.join` of two POSIX components as the source uses it: an
    absolute second component resets the path, otherwise a `/` is
    inserted unless the first component is empty or already ends in
    `/`. -/
def join2 (a b : Str) : Str :=
  if b.head? = some '/' then b
  else if a = [] then b
  else if a.getLast? = some '/' then a ++ b
  else a ++ '/' :: b

/-- `os.path.join(p₀, p₁, …)` (lines 110, 185). -/
def joinPath : List Str → Str
  | [] => []
  | p :: ps => ps.foldl join2 p

/-- `os.path.dirname` (line 115): everything up to the final `/`;
    Python additionally strips trailing slashes from the head unless the
    head consists only of slashes. -/
def dirName (s : Str) : Str :=
  let revTail := s.reverse.dropWhile (fun c => ¬ c = '/')
  let head := revTail.reverse
  if head = [] ∨ head.all (fun c => c = '/') then head
  else head.reverse.dropWhile (fun c => c = '/') |>.reverse

/-- `pathlib.Path.parent` rendered as a string (lines 91, 120): the part
    before the last `/`, `.` when there is no `/`, `/` for a direct
    child of the root.  (Path normalisation of duplicate slashes is not
    modelled; the paths the program builds contain none.) -/
def pathParent (s : Str) : Str :=
  if '/' ∈ s then
    let head := (s.reverse.dropWhile (fun c => ¬ c = '/')).reverse
    let trimmed := head.reverse.dropWhile (fun c => c = '/') |>.reverse
    if trimmed = [] then str "/" else trimmed
  else str "."

/-! ## Sanitizer lemmas -/

/-- No two adjacent characters of the list both satisfy `p`. -/
def noTwo (p : Char → Bool) : List Char → Bool
  | a :: b :: rest => (!(p a && p b)) && noTwo p (b :: rest)
  | _ => true

@[simp] theorem noTwo_nil (p : Char → Bool) : noTwo p [] = true := rfl

@[simp] theorem noTwo_single (p : Char → Bool) (a : Char) : noTwo p [a] = true := rfl

@[simp] theorem noTwo_cons_cons (p : Char → Bool) (a b : Char) (l : List Char) :
    noTwo p (a :: b :: l) = ((!(p a && p b)) && noTwo p (b :: l)) := rfl

theorem noTwo_tail {p : Char → Bool} {a : Char} {l : List Char}
    (h : noTwo p (a :: l) = true) : noTwo p l = true := by
  cases l with
  | nil => rfl
  | cons b bs => exact (Bool.and_eq_true_iff.mp h).2

theorem noTwo_cons_of_head {p : Char → Bool} {a : Char} {l : List Char}
    (hhead : ∀ c, l.head? = some c → (p a && p c) = false)
    (hl : noTwo p l = true) : noTwo p (a :: l) = true := by
  cases l with
  | nil => rfl
  | cons b bs =>
    have hb := hhead b rfl
    simp [hb, hl]

theorem noTwo_head {p : Char → Bool} {a b : Char} {l : List Char}
    (h : noTwo p (a :: l) = true) (hb : l.head? = some b) : (p a && p b) = false := by
  cases l with
  | nil => simp at hb
  | cons c cs =>
    cases hb
    have h1 := (Bool.and_eq_true_iff.mp h).1
    cases hA : p a <;> cases hB : p b <;> simp_all

theorem mem_runSubGo {p : Char → Bool} {r : Char} :
    ∀ (l : List Char) (b : Bool) (c : Char),
      c ∈ runSubGo p r b l → c = r ∨ (p c = false ∧ c ∈ l) := by
  intro l
  induction l with
  | nil => intro b c h; simp [runSubGo] at h
  | cons a as ih =>
    intro b c h
    by_cases hpa : p a = true
    · cases b with
      | true =>
        simp only [runSubGo, hpa, if_true] at h
        rcases ih true c h with h' | h'
        · exact Or.inl h'
        · exact Or.inr ⟨h'.1, List.mem_cons_of_mem _ h'.2⟩
      | false =>
        simp only [runSubGo, hpa, if_true] at h
        rcases List.mem_cons.mp h with h' | h'
        · exact Or.inl h'
        · rcases ih true c h' with h'' | h''
          · exact Or.inl h''
          · exact Or.inr ⟨h''.1, List.mem_cons_of_mem _ h''.2⟩
    · have hpa' : p a = false := Bool.not_eq_true _ ▸ (by simpa using hpa)
      simp only [runSubGo, hpa', Bool.false_eq_true, if_false] at h
      rcases List.mem_cons.mp h with h' | h'
      · exact Or.inr ⟨h' ▸ hpa', h' ▸ List.mem_cons_self a as⟩
      · rcases ih false c h' with h'' | h''
        · exact Or.inl h''
        · exact Or.inr ⟨h''.1, List.mem_cons_of_mem _ h''.2⟩

theorem runSubGo_eq_self_of_none {p : Char → Bool} {r : Char} :
    ∀ (l : List Char), (∀ c ∈ l, p c = false) → ∀ b, runSubGo p r b l = l := by
  intro l
  induction l with
  | nil => intro _ b; rfl
  | cons a as ih =>
    intro h b
    have hpa : p a = false := h a (List.mem_cons_self a as)
    simp only [runSubGo, hpa, Bool.false_eq_true, if_false]
    rw [ih (fun c hc => h c (List.mem_cons_of_mem _ hc)) false]

theorem head?_runSubGo_true {p : Char → Bool} {r : Char} :
    ∀ (l : List Char) (c : Char), (runSubGo p r true l).head? = some c → p c = false := by
  intro l
  induction l with
  | nil => intro c h; simp [runSubGo] at h
  | cons a as ih =>
    intro c h
    by_cases hpa : p a = true
    · simp only [runSubGo, hpa, if_true] at h
      exact ih c h
    · have hpa' : p a = false := by simpa using hpa
      simp only [runSubGo, hpa', Bool.false_eq_true, if_false, List.head?_cons,
        Option.some.injEq] at h
      exact h ▸ hpa'

theorem head?_runSubGo_false {p : Char → Bool} {r : Char} (l : List Char) :
    (runSubGo p r false l).head? = none ∨ (runSubGo p r false l).head? = some r ∨
      (runSubGo p r false l).head? = l.head? := by
  cases l with
  | nil => exact Or.inl rfl
  | cons a as =>
    by_cases hpa : p a = true
    · exact Or.inr (Or.inl (by simp [runSubGo, hpa]))
    · have hpa' : p a = false := by simpa using hpa
      exact Or.inr (Or.inr (by simp [runSubGo, hpa']))

theorem noTwo_runSubGo {p : Char → Bool} {r : Char} :
    ∀ (l : List Char) (b : Bool), noTwo p (runSubGo p r b l) = true := by
  intro l
  induction l with
  | nil => intro b; rfl
  | cons a as ih =>
    intro b
    by_cases hpa : p a = true
    · cases b with
      | true => simpa [runSubGo, hpa] using ih true
      | false =>
        simp only [runSubGo, hpa, if_true]
        refine noTwo_cons_of_head (fun c hc => ?_) (ih true)
        have := head?_runSubGo_true (p := p) (r := r) as c hc
        simp [this]
    · have hpa' : p a = false := by simpa using hpa
      simp only [runSubGo, hpa', Bool.false_eq_true, if_false]
      refine noTwo_cons_of_head (fun c hc => ?_) (ih false)
      simp [hpa']

theorem noTwo_runSubGo_preserve {p q : Char → Bool} {r : Char} (hqr : q r = false) :
    ∀ (l : List Char) (b : Bool), noTwo q l = true → noTwo q (runSubGo p r b l) = true := by
  intro l
  induction l with
  | nil => intro b _; rfl
  | cons a as ih =>
    intro b hq
    have hqas : noTwo q as = true := noTwo_tail hq
    by_cases hpa : p a = true
    · cases b with
      | true => simpa [runSubGo, hpa] using ih true hqas
      | false =>
        simp only [runSubGo, hpa, if_true]
        refine noTwo_cons_of_head (fun c hc => ?_) (ih true hqas)
        simp [hqr]
    · have hpa' : p a = false := by simpa using hpa
      simp only [runSubGo, hpa', Bool.false_eq_true, if_false]
      refine noTwo_cons_of_head (fun c hc => ?_) (ih false hqas)
      rcases head?_runSubGo_false (p := p) (r := r) as with h | h | h
      · rw [h] at hc; cases hc
      · rw [h] at hc; cases hc; simp [hqr]
      · rw [h] at hc
        exact noTwo_head hq hc

theorem runSubGo_eq_self_of_noTwo {p : Char → Bool} {r : Char}
    (hpr : ∀ c, p c = true → c = r) :
    ∀ (l : List Char), noTwo p l = true →
      runSubGo p r false l = l ∧
        ((∀ c, l.head? = some c → p c = false) → runSubGo p r true l = l) := by
  intro l
  induction l with
  | nil => exact fun _ => ⟨rfl, fun _ => rfl⟩
  | cons a as ih =>
    intro h
    have has : noTwo p as = true := noTwo_tail h
    obtain ⟨ihF, ihT⟩ := ih has
    by_cases hpa : p a = true
    · have har : a = r := hpr a hpa
      have hhead : ∀ c, as.head? = some c → p c = false := by
        intro c hc
        have := noTwo_head h hc
        simpa [hpa] using this
      constructor
      · simp only [runSubGo, hpa, if_true, Bool.false_eq_true, if_false]
        rw [ihT hhead, har]
      · intro hno
        have := hno a rfl
        rw [this] at hpa
        cases hpa
    · have hpa' : p a = false := by simpa using hpa
      constructor
      · simp only [runSubGo, hpa', Bool.false_eq_true, if_false]
        rw [ihF]
      · intro _
        simp only [runSubGo, hpa', Bool.false_eq_true, if_false]
        rw [ihF]

theorem lastDash_suffix :
    ∀ (l : List Char) (acc : Option (List Char)) (r : List Char),
      lastDash l acc = some r → acc = some r ∨ r <:+ l := by
  intro l
  induction l with
  | nil => intro acc r h; exact Or.inl h
  | cons c cs ih =>
    intro acc r h
    by_cases hc : c = '-'
    · simp only [lastDash, hc, if_true] at h
      rcases ih (some cs) r h with h' | h'
      · cases h'
        exact Or.inr (List.suffix_cons c cs)
      · exact Or.inr (List.IsSuffix.trans h' (List.suffix_cons c cs))
    · by_cases hw : isWsChar c = true
      · simp only [lastDash, hc, if_false, hw, if_true] at h
        rcases ih acc r h with h' | h'
        · exact Or.inl h'
        · exact Or.inr (List.IsSuffix.trans h' (List.suffix_cons c cs))
      · simp only [lastDash, hc, if_false, hw, if_false] at h
        exact Or.inl h

theorem findM5_suffix {l r : List Char} (h : findM5 l = some r) : r <:+ l := by
  cases l with
  | nil => simp [findM5] at h
  | cons c cs =>
    by_cases hc : isDashWs c = true
    · simp only [findM5, hc, if_true] at h
      rcases lastDash_suffix cs none r h with h' | h'
      · cases h'
      · exact List.IsSuffix.trans h' (List.suffix_cons c cs)
    · simp [findM5, hc] at h

theorem mem_sub5Go :
    ∀ (f : Nat) (l : List Char) (c : Char), c ∈ sub5Go f l → c = '-' ∨ c ∈ l := by
  intro f
  induction f with
  | zero =>
    intro l c h
    cases l with
    | nil => simp [sub5Go] at h
    | cons a as => exact Or.inr (by simpa [sub5Go] using h)
  | succ f ih =>
    intro l c h
    cases l with
    | nil => simp [sub5Go] at h
    | cons a as =>
      by_cases ha : a = '-'
      · cases hm : findM5 as with
        | some rest =>
          simp only [sub5Go, ha, if_true, hm] at h
          rcases List.mem_cons.mp h with h' | h'
          · exact Or.inl h'
          · rcases ih rest c h' with h'' | h''
            · exact Or.inl h''
            · exact Or.inr (List.mem_cons_of_mem _
                (List.IsSuffix.subset (findM5_suffix hm) h''))
        | none =>
          simp only [sub5Go, ha, if_true, hm] at h
          rcases List.mem_cons.mp h with h' | h'
          · exact Or.inr (by rw [h', ← ha]; exact List.mem_cons_self a as)
          · rcases ih as c h' with h'' | h''
            · exact Or.inl h''
            · exact Or.inr (List.mem_cons_of_mem _ h'')
      · simp only [sub5Go, ha, if_false] at h
        rcases List.mem_cons.mp h with h' | h'
        · exact Or.inr (h' ▸ List.mem_cons_self a as)
        · rcases ih as c h' with h'' | h''
          · exact Or.inl h''
          · exact Or.inr (List.mem_cons_of_mem _ h'')

/-- On a string with no whitespace and no two adjacent hyphens the
    regex `-(-|\s)+-` has no match, so the fifth substitution is the
    identity. -/
theorem sub5Go_eq_self :
    ∀ (l : List Char), (∀ c ∈ l, isWsChar c = false) →
      noTwo isDash l = true → ∀ f, sub5Go f l = l := by
  intro l
  induction l with
  | nil => intro _ _ f; cases f <;> rfl
  | cons a as ih =>
    intro hws hnd f
    have hws' : ∀ c ∈ as, isWsChar c = false :=
      fun c hc => hws c (List.mem_cons_of_mem _ hc)
    have hnd' : noTwo isDash as = true := noTwo_tail hnd
    cases f with
    | zero => rfl
    | succ f =>
      by_cases ha : a = '-'
      · have hm : findM5 as = none := by
          cases as with
          | nil => rfl
          | cons d ds =>
            have hd : isDashWs d = false := by
              have hwd : isWsChar d = false := hws' d (List.mem_cons_self d ds)
              have hpair := noTwo_head hnd (b := d) rfl
              rw [ha] at hpair
              simp only [isDash, decide_True, Bool.true_and] at hpair
              simp [isDashWs, hwd, hpair]
            simp [findM5, hd]
        simp only [sub5Go, ha, if_true, hm]
        rw [ih hws' hnd' f]
      · simp only [sub5Go, ha, if_false]
        rw [ih hws' hnd' f]

/-! ## dropWhile / strip lemmas -/

theorem head?_dropWhile_not (p : Char → Bool) :
    ∀ (l : List Char) (c : Char), (l.dropWhile p).head? = some c → p c = false := by
  intro l
  induction l with
  | nil => intro c h; simp at h
  | cons a as ih =>
    intro c h
    by_cases hpa : p a = true
    · rw [List.dropWhile_cons, if_pos hpa] at h
      exact ih c h
    · have hpa' : p a = false := by simpa using hpa
      rw [List.dropWhile_cons, if_neg (by simp [hpa'])] at h
      simp only [List.head?_cons, Option.some.injEq] at h
      exact h ▸ hpa'

theorem dropWhile_eq_self_of_head {p : Char → Bool} {l : List Char}
    (h : ∀ c, l.head? = some c → p c = false) : l.dropWhile p = l := by
  cases l with
  | nil => rfl
  | cons a as =>
    have := h a rfl
    rw [List.dropWhile_cons, if_neg (by simp [this])]

theorem dropWhile_dropWhile (p : Char → Bool) (l : List Char) :
    (l.dropWhile p).dropWhile p = l.dropWhile p :=
  dropWhile_eq_self_of_head (head?_dropWhile_not p l)

theorem getLast?_dropWhile (p : Char → Bool) :
    ∀ (l : List Char), l.dropWhile p ≠ [] → (l.dropWhile p).getLast? = l.getLast? := by
  intro l
  induction l with
  | nil => intro h; simp at h
  | cons a as ih =>
    intro h
    by_cases hpa : p a = true
    · rw [List.dropWhile_cons, if_pos hpa] at h ⊢
      have hne : as ≠ [] := by
        intro he
        rw [he] at h
        exact h rfl
      cases as with
      | nil => exact absurd rfl hne
      | cons b bs => rw [ih h, List.getLast?_cons_cons]
    · rw [List.dropWhile_cons, if_neg hpa]

/-- The stripped string sits inside the original:
    `l = leading strip chars ++ stripEnds l ++ trailing strip chars`. -/
theorem stripEnds_decomp (l : List Char) :
    l = l.takeWhile isStripChar ++
      (stripEnds l ++ ((l.dropWhile isStripChar).reverse.takeWhile isStripChar).reverse) := by
  conv_lhs => rw [← List.takeWhile_append_dropWhile (p := isStripChar) (l := l)]
  congr 1
  conv_lhs => rw [← List.reverse_reverse (l.dropWhile isStripChar)]
  conv_lhs => rw [← List.takeWhile_append_dropWhile (p := isStripChar)
    (l := (l.dropWhile isStripChar).reverse)]
  rw [List.reverse_append]
  rfl

theorem mem_stripEnds {l : List Char} {c : Char} (h : c ∈ stripEnds l) : c ∈ l := by
  rw [stripEnds_decomp l]
  exact List.mem_append.mpr (Or.inr (List.mem_append.mpr (Or.inl h)))

theorem noTwo_append_right {p : Char → Bool} :
    ∀ (a l : List Char), noTwo p (a ++ l) = true → noTwo p l = true := by
  intro a
  induction a with
  | nil => exact fun l h => h
  | cons x xs ih => exact fun l h => ih l (noTwo_tail h)

theorem noTwo_append_left {p : Char → Bool} :
    ∀ (l b : List Char), noTwo p (l ++ b) = true → noTwo p l = true := by
  intro l
  induction l with
  | nil => intro b _; rfl
  | cons x xs ih =>
    intro b h
    cases xs with
    | nil => rfl
    | cons y ys =>
      have hpair := noTwo_head h (b := y) rfl
      have htail : noTwo p (y :: ys) = true := ih b (noTwo_tail h)
      simp [hpair, htail]

theorem noTwo_stripEnds {p : Char → Bool} {l : List Char} (h : noTwo p l = true) :
    noTwo p (stripEnds l) = true := by
  rw [stripEnds_decomp l] at h
  exact noTwo_append_left _ _ (noTwo_append_right _ _ h)

theorem stripEnds_idem (l : List Char) : stripEnds (stripEnds l) = stripEnds l := by
  have h1 : (stripEnds l).dropWhile isStripChar = stripEnds l := by
    apply dropWhile_eq_self_of_head
    intro c hc
    rw [show stripEnds l = ((l.dropWhile isStripChar).reverse.dropWhile isStripChar).reverse
      from rfl, List.head?_reverse] at hc
    have hne : (l.dropWhile isStripChar).reverse.dropWhile isStripChar ≠ [] := by
      intro he
      rw [he] at hc
      cases hc
    rw [getLast?_dropWhile _ _ hne, List.getLast?_reverse] at hc
    exact head?_dropWhile_not _ _ _ hc
  show (((stripEnds l).dropWhile isStripChar).reverse.dropWhile isStripChar).reverse = _
  rw [h1]
  show ((((l.dropWhile isStripChar).reverse.dropWhile isStripChar).reverse).reverse.dropWhile
    isStripChar).reverse = _
  rw [List.reverse_reverse, dropWhile_dropWhile]
  rfl

/-! ## Properties of the sanitizer -/

theorem mem_sanStage1 {t : Str} {c : Char} (h : c ∈ sanStage1 t) : isSepClass c = false := by
  rcases mem_runSubGo _ _ _ h with h' | h'
  · subst h'; decide
  · exact h'.1

theorem mem_sanStage2 {t : Str} {c : Char} (h : c ∈ sanStage2 t) :
    isWsChar c = false ∧ isSepClass c = false := by
  rcases mem_runSubGo _ _ _ h with h' | h'
  · subst h'; exact ⟨by decide, by decide⟩
  · exact ⟨h'.1, mem_sanStage1 h'.2⟩

theorem mem_sanStage3 {t : Str} {c : Char} (h : c ∈ sanStage3 t) :
    isWsChar c = false ∧ isSepClass c = false := by
  rcases mem_runSubGo _ _ _ h with h' | h'
  · subst h'; exact ⟨by decide, by decide⟩
  · exact mem_sanStage2 h'.2

theorem mem_sanStage4 {t : Str} {c : Char} (h : c ∈ sanStage4 t) :
    isWsChar c = false ∧ isSepClass c = false := by
  rcases mem_runSubGo _ _ _ h with h' | h'
  · subst h'; exact ⟨by decide, by decide⟩
  · exact mem_sanStage3 h'.2

theorem noTwo_dash_sanStage4 (t : Str) : noTwo isDash (sanStage4 t) = true :=
  noTwo_runSubGo _ _

theorem noTwo_dot_sanStage4 (t : Str) : noTwo isDot (sanStage4 t) = true :=
  noTwo_runSubGo_preserve (by decide) _ _ (noTwo_runSubGo _ _)

theorem sub5_sanStage4 (t : Str) : sub5 (sanStage4 t) = sanStage4 t :=
  sub5Go_eq_self _ (fun c hc => (mem_sanStage4 hc).1) (noTwo_dash_sanStage4 t) _

theorem sanitize_eq_strip (t : Str) : sanitize t = stripEnds (sanStage4 t) := by
  rw [sanitize, sub5_sanStage4]

theorem mem_sanitize {t : Str} {c : Char} (h : c ∈ sanitize t) :
    isWsChar c = false ∧ isSepClass c = false := by
  rw [sanitize_eq_strip] at h
  exact mem_sanStage4 (mem_stripEnds h)

theorem noTwo_dot_sanitize (t : Str) : noTwo isDot (sanitize t) = true := by
  rw [sanitize_eq_strip]
  exact noTwo_stripEnds (noTwo_dot_sanStage4 t)

theorem noTwo_dash_sanitize (t : Str) : noTwo isDash (sanitize t) = true := by
  rw [sanitize_eq_strip]
  exact noTwo_stripEnds (noTwo_dash_sanStage4 t)

/-- The sanitizer is idempotent. -/
theorem sanitize_sanitize (t : Str) : sanitize (sanitize t) = sanitize t := by
  have hmem : ∀ c ∈ sanitize t, isWsChar c = false ∧ isSepClass c = false :=
    fun c hc => mem_sanitize hc
  have h1 : sanStage1 (sanitize t) = sanitize t := by
    show runSubGo isSepClass '-' false (sanitize t) = sanitize t
    exact runSubGo_eq_self_of_none _ (fun c hc => (hmem c hc).2) false
  have h2 : sanStage2 (sanitize t) = sanitize t := by
    show runSubGo isWsChar '-' false (sanStage1 (sanitize t)) = sanitize t
    rw [h1]
    exact runSubGo_eq_self_of_none _ (fun c hc => (hmem c hc).1) false
  have h3 : sanStage3 (sanitize t) = sanitize t := by
    show runSubGo isDot '.' false (sanStage2 (sanitize t)) = sanitize t
    rw [h2]
    exact (runSubGo_eq_self_of_noTwo (fun c hc => by simpa [isDot] using hc) _
      (noTwo_dot_sanitize t)).1
  have h4 : sanStage4 (sanitize t) = sanitize t := by
    show runSubGo isDash '-' false (sanStage3 (sanitize t)) = sanitize t
    rw [h3]
    exact (runSubGo_eq_self_of_noTwo (fun c hc => by simpa [isDash] using hc) _
      (noTwo_dash_sanitize t)).1
  have h5 : sub5 (sanitize t) = sanitize t :=
    sub5Go_eq_self _ (fun c hc => (hmem c hc).1) (noTwo_dash_sanitize t) _
  show stripEnds (sub5 (sanStage4 (sanitize t))) = sanitize t
  rw [h4, h5, sanitize_eq_strip, stripEnds_idem]

/-- A path-traversal-relevant character: a path separator. -/
def isPathSep (c : Char) : Bool := c = '/' || c = '\\'

/-- Does the title contain a path-traversal sequence: the substring `..`
    or a bare path separator? -/
def hasTraversal (t : Str) : Bool := containsSub (str "..") t || t.any isPathSep

theorem containsSub_dotdot {l : List Char} (h : noTwo isDot l = true) :
    containsSub (str "..") l = false := by
  have hdd : str ".." = ['.', '.'] := rfl
  induction l with
  | nil => rfl
  | cons c cs ih =>
    have hpre : (str "..").isPrefixOf (c :: cs) = false := by
      cases cs with
      | nil => simp [hdd, List.isPrefixOf]
      | cons d ds =>
        have hpair := noTwo_head h (b := d) rfl
        by_cases hc1 : c = '.'
        · by_cases hd1 : d = '.'
          · exfalso
            rw [hc1, hd1] at hpair
            simp [isDot] at hpair
          · simp only [hdd, List.isPrefixOf]
            simp only [Bool.and_eq_false_iff, beq_eq_false_iff_ne, ne_eq]
            exact Or.inr (Or.inl fun hd => hd1 hd.symm)
        · simp only [hdd, List.isPrefixOf]
          simp only [Bool.and_eq_false_iff, beq_eq_false_iff_ne, ne_eq]
          exact Or.inl fun hc => hc1 hc.symm
    show ((str "..").isPrefixOf (c :: cs) || containsSub (str "..") cs) = false
    rw [hpre, ih (noTwo_tail h)]
    rfl

theorem isPathSep_eq_false {c : Char} (h : isSepClass c = false) : isPathSep c = false := by
  simp only [isSepClass, Bool.or_eq_false_iff, decide_eq_false_iff_not] at h
  simp only [isPathSep, Bool.or_eq_false_iff, decide_eq_false_iff_not]
  exact ⟨h.1.1.1.2, h.1.1.1.1⟩

/-- Sanitizer output never contains `..` nor a path separator. -/
theorem hasTraversal_sanitize (t : Str) : hasTraversal (sanitize t) = false := by
  have h1 : containsSub (str "..") (sanitize t) = false :=
    containsSub_dotdot (noTwo_dot_sanitize t)
  have h2 : (sanitize t).any isPathSep = false := by
    rw [List.any_eq_false]
    intro c hc
    rw [isPathSep_eq_false (mem_sanitize hc).2]
    exact Bool.false_ne_true
  simp [hasTraversal, h1, h2]

/-! ## The exporter state machine

External effects are recorded in an event trace.  The three fallible
external operations (`__download`, `__modernize`, `__convert`; any of
them may raise in Python) are driven by a failure schedule
`sched : Nat → Bool`: the `n`-th fallible call fails iff `sched n`.
The Confluence metadata reads (`get_page_by_id`, `get_child_id_list`,
`get_all_spaces`) are modelled as total reads of a fixed environment:
the source does not catch their errors and no claim concerns them. -/

/-- Externally visible events of one run. -/
inductive Event where
  /-- `get_page_by_id(src_id)` (line 99), a network call. -/
  | getPage (srcId : Str)
  /-- `get_child_id_list(page_id)` (line 104), a network call. -/
  | getChildren (pageId : Str)
  /-- `os.makedirs(dir, exist_ok=True)` (lines 116, 186). -/
  | mkdirs (dir : Str)
  /-- `__download(page_id, path)` (lines 48–56): HTTP fetch of the
      legacy `.doc` and write to disk. -/
  | download (pageId : Str) (path : Str)
  /-- `__modernize(doc, docx)` (lines 58–80): `.doc` → `.docx`. -/
  | modernize (docPath docxPath : Str)
  /-- `__convert(docx, md, media)` (lines 82–91): `.docx` → `.md`. -/
  | convert (docxPath mdPath mediaPath : Str)
  /-- `sleep(10)` before the single retry (lines 129, 139, 154). -/
  | sleepFor (secs : Nat)
  deriving DecidableEq, Repr

/-- Contents of files written by the exporter.  Document contents are
    opaque: a `.doc` is determined by the page it was exported from, a
    `.docx` by the `.doc` contents it was converted from, a `.md` by the
    `.docx` contents plus the media-extraction directory (the pandoc
    output and the absolute-path-stripping rewrite of lines 90–91 are
    folded into the constructor).  The per-space index `home.md` is real
    text. -/
inductive FileContent where
  | docFile (pageId : Str)
  | docxFile (src : Option FileContent)
  | mdFile (src : Option FileContent) (media : Str)
  | textFile (t : Str)

/-- The file system: an association list from paths to contents, newest
    entry first. -/
abbrev FS := List (Str × FileContent)

/-- Look a path up in the file system. -/
def fsGet (fs : FS) (p : Str) : Option FileContent :=
  (fs.find? (fun e => e.1 = p)).map (fun e => e.2)

/-- Write (create or overwrite) a file. -/
def fsPut (fs : FS) (p : Str) (c : FileContent) : FS := (p, c) :: fs

/-- `Path(p).is_file()` in the model: the path has been written.
    (Pre-existing files from earlier runs are modelled by seeding the
    initial file system.) -/
def fsHas (fs : FS) (p : Str) : Bool := (fsGet fs p).isSome

/-- `home_md.read_text()` on a path holding text; reading a missing or
    non-text file (impossible for the index file in any run the claims
    concern, since `__dump_space` creates it as text before recursing)
    yields `[]`. -/
def readTextAt (fs : FS) (p : Str) : Str :=
  match fsGet fs p with
  | some (FileContent.textFile t) => t
  | _ => []

/-- Remote Confluence content, fixed for the whole run. -/
structure Env where
  /-- `page["title"]` of the response to `get_page_by_id(srcId)`. -/
  title : Str → Str
  /-- `page["id"]` of that response (the source re-reads the id from the
      response rather than reusing `src_id`, line 101). -/
  respId : Str → Str
  /-- `get_child_id_list(pageId)` (line 104). -/
  children : Str → List Str

/-- One space as returned by `get_all_spaces` (key and optional
    homepage id). -/
structure SpaceData where
  key : Str
  homepage : Option Str
  deriving DecidableEq, Repr

/-- Program state threaded through the run. -/
structure St where
  fs : FS
  /-- `self.__seen` (line 36), a set of page ids. -/
  seen : List Str
  /-- Trace of external events so far. -/
  trace : List Event
  /-- Number of fallible external calls made so far (index into the
      failure schedule). -/
  calls : Nat

/-- How a run aborts. -/
inductive ExpErr where
  /-- `ExportException("Duplicate Page ID Found!")` (line 97). -/
  | duplicate
  /-- An exception from `__download` propagated uncaught. -/
  | downloadFail
  /-- An exception from `__modernize` propagated uncaught. -/
  | modernizeFail
  /-- An exception from `__convert` propagated uncaught. -/
  | convertFail
  /-- Recursion fuel exhausted (modelling artefact: the source recurses
      without bound on the remote tree). -/
  | outOfFuel
  deriving DecidableEq, Repr

/-- Record an infallible external event. -/
def recordEv (e : Event) (st : St) : St := { st with trace := st.trace ++ [e] }

/-- Make one fallible external call: record its event, consume one index
    of the failure schedule, and report success (`true`) or failure. -/
def extCall (sched : Nat → Bool) (e : Event) (st : St) : St × Bool :=
  ({ st with trace := st.trace ++ [e], calls := st.calls + 1 }, !(sched st.calls))

/-- `__download(page_id, page_filename_doc)` (lines 48–56): on success
    the response bytes are written to `fileDoc`; on failure (the
    exception caught or propagated by the caller) nothing is written. -/
def downloadCall (sched : Nat → Bool) (pageId fileDoc : Str) (st : St) : St × Bool :=
  let (st, ok) := extCall sched (Event.download pageId fileDoc) st
  if ok then ({ st with fs := fsPut st.fs fileDoc (FileContent.docFile pageId) }, true)
  else (st, false)

/-- `__modernize(doc, docx)` (lines 58–80): on success the converted
    copy of the current `.doc` contents is written to `fileDocx`. -/
def modernizeCall (sched : Nat → Bool) (fileDoc fileDocx : Str) (st : St) : St × Bool :=
  let (st, ok) := extCall sched (Event.modernize fileDoc fileDocx) st
  if ok then
    ({ st with fs := fsPut st.fs fileDocx (FileContent.docxFile (fsGet st.fs fileDoc)) }, true)
  else (st, false)

/-- `__convert(docx, md, media)` (lines 82–91): on success the markdown
    derived from the current `.docx` contents is written to `fileMd`
    (media extraction into `fileMedia` and the path-stripping rewrite
    are folded into the content constructor). -/
def convertCall (sched : Nat → Bool) (fileDocx fileMd fileMedia : Str) (st : St) : St × Bool :=
  let (st, ok) := extCall sched (Event.convert fileDocx fileMd fileMedia) st
  if ok then
    ({ st with fs := fsPut st.fs fileMd (FileContent.mdFile (fsGet st.fs fileDocx) fileMedia) }, true)
  else (st, false)

/-- Stage 1 (lines 123–130): skip if the `.doc` exists; otherwise
    download, and on failure sleep 10 s and retry the download once; a
    second failure propagates. -/
def stageDownload (sched : Nat → Bool) (pageId fileDoc : Str) (st : St) :
    St × Option ExpErr :=
  if fsHas st.fs fileDoc then (st, none)
  else
    let (st, ok) := downloadCall sched pageId fileDoc st
    if ok then (st, none)
    else
      let st := recordEv (Event.sleepFor 10) st
      let (st, ok) := downloadCall sched pageId fileDoc st
      if ok then (st, none) else (st, some ExpErr.downloadFail)

/-- Stage 2 (lines 132–141): skip if the `.docx` exists; otherwise
    modernize, and on failure sleep 10 s, re-download the `.doc`
    unconditionally, and retry the modernize once; any failure inside
    the retry propagates. -/
def stageModernize (sched : Nat → Bool) (pageId fileDoc fileDocx : Str) (st : St) :
    St × Option ExpErr :=
  if fsHas st.fs fileDocx then (st, none)
  else
    let (st, ok) := modernizeCall sched fileDoc fileDocx st
    if ok then (st, none)
    else
      let st := recordEv (Event.sleepFor 10) st
      let (st, ok) := downloadCall sched pageId fileDoc st
      if ok then
        let (st, ok) := modernizeCall sched fileDoc fileDocx st
        if ok then (st, none) else (st, some ExpErr.modernizeFail)
      else (st, some ExpErr.downloadFail)

/-- Stage 3 (lines 143–161): skip if the `.md` exists; otherwise
    convert, and on failure sleep 10 s, re-run download, modernize and
    convert unconditionally; any failure inside the retry propagates. -/
def stageConvert (sched : Nat → Bool) (pageId fileDoc fileDocx fileMd fileMedia : Str)
    (st : St) : St × Option ExpErr :=
  if fsHas st.fs fileMd then (st, none)
  else
    let (st, ok) := convertCall sched fileDocx fileMd fileMedia st
    if ok then (st, none)
    else
      let st := recordEv (Event.sleepFor 10) st
      let (st, ok) := downloadCall sched pageId fileDoc st
      if ok then
        let (st, ok) := modernizeCall sched fileDoc fileDocx st
        if ok then
          let (st, ok) := convertCall sched fileDocx fileMd fileMedia st
          if ok then (st, none) else (st, some ExpErr.convertFail)
        else (st, some ExpErr.modernizeFail)
      else (st, some ExpErr.downloadFail)

/-- `os.path.join(out_dir, *page_location)` without the extension
    (lines 108–110): the joined sanitized ancestor titles plus the
    sanitized page title. -/
def pageBase (outDir : Str) (parents : List Str) (title : Str) : Str :=
  joinPath (outDir :: (parents.map sanitize ++ [sanitize title]))

/-- `page_filename_doc` (line 110). -/
def pageDocPath (outDir : Str) (parents : List Str) (title : Str) : Str :=
  pageBase outDir parents title ++ str ".doc"

/-- `page_filename_docx = page_filename_doc.replace(".doc", ".docx")`
    (line 111) — a replace-all over the whole path. -/
def pageDocxPath (outDir : Str) (parents : List Str) (title : Str) : Str :=
  replaceAll (str ".doc") (str ".docx") (pageDocPath outDir parents title)

/-- `page_filename_md = page_filename_doc.replace(".doc", ".md")`
    (line 112) — a replace-all over the whole path. -/
def pageMdPath (outDir : Str) (parents : List Str) (title : Str) : Str :=
  replaceAll (str ".doc") (str ".md") (pageDocPath outDir parents title)

/-- `page_filename_media = page_filename_doc.removesuffix(".doc")`
    (line 113). -/
def pageMediaPath (outDir : Str) (parents : List Str) (title : Str) : Str :=
  removeSuffix (str ".doc") (pageDocPath outDir parents title)

/-- Lines 117–120: append a link entry for the page's media path to the
    index file, then rewrite it with the index directory prefix
    stripped (`read-modify-write` twice). -/
def homeAppendSt (homePath media : Str) (st : St) : St :=
  let t1 := readTextAt st.fs homePath ++ str "\n* [" ++ media ++ str "](" ++ media ++ str ")"
  let fs1 := fsPut st.fs homePath (FileContent.textFile t1)
  let t2 := replaceAll (pathParent homePath ++ [ '/' ]) [] t1
  { st with fs := fsPut fs1 homePath (FileContent.textFile t2) }

/-- The body of `__dump_page` before the recursion into children
    (lines 94–164): duplicate check, metadata and child-list fetch, path
    computation, directory creation, index append, the three stages,
    and marking the page as seen.  Returns the child id list and the
    `parents` chain for the recursive calls (line 170: the *sanitized*
    parents with the *unsanitized* title appended). -/
def processPage (env : Env) (sched : Nat → Bool) (outDir : Str)
    (srcId : Str) (parents : List Str) (homePath : Str) (st : St) :
    St × Option ExpErr × List Str × List Str :=
  if srcId ∈ st.seen then (st, some ExpErr.duplicate, [], [])
  else
    let st := recordEv (Event.getPage srcId) st
    let title := env.title srcId
    let pageId := env.respId srcId
    let st := recordEv (Event.getChildren pageId) st
    let childIds := env.children pageId
    let fileDoc := pageDocPath outDir parents title
    let fileDocx := pageDocxPath outDir parents title
    let fileMd := pageMdPath outDir parents title
    let fileMedia := pageMediaPath outDir parents title
    let st := recordEv (Event.mkdirs (dirName fileDoc)) st
    let st := homeAppendSt homePath fileMedia st
    match stageDownload sched pageId fileDoc st with
    | (st, some e) => (st, some e, [], [])
    | (st, none) =>
      match stageModernize sched pageId fileDoc fileDocx st with
      | (st, some e) => (st, some e, [], [])
      | (st, none) =>
        match stageConvert sched pageId fileDoc fileDocx fileMd fileMedia st with
        | (st, some e) => (st, some e, [], [])
        | (st, none) =>
          ({ st with seen := st.seen.insert pageId }, none,
            childIds, parents.map sanitize ++ [title])

/-- `__dump_page` (lines 93–172): process the page, then recurse into
    each child in order, aborting on the first error.  `fuel` bounds the
    recursion depth (the source has no such bound; any terminating run
    is reproduced by a large enough fuel). -/
def dumpPage (env : Env) (sched : Nat → Bool) (outDir : Str) :
    Nat → Str → List Str → Str → St → St × Option ExpErr
  | 0, _, _, _, st => (st, some ExpErr.outOfFuel)
  | fuel + 1, srcId, parents, homePath, st =>
    match processPage env sched outDir srcId parents homePath st with
    | (st1, some e, _, _) => (st1, some e)
    | (st1, none, childIds, parentsK) =>
      childIds.foldl
        (fun acc cid =>
          match acc with
          | (stA, some e) => (stA, some e)
          | (stA, none) => dumpPage env sched outDir fuel cid parentsK homePath stA)
        (st1, none)

/-- `__dump_space` (lines 174–188): skip a space without a homepage
    (printing only); otherwise create the index file
    `<out_dir>/<sanitized key>/home.md` and walk the tree from the
    homepage with `parents = [space_key]`. -/
def dumpSpace (env : Env) (sched : Nat → Bool) (outDir : Str) (fuel : Nat)
    (sp : SpaceData) (st : St) : St × Option ExpErr :=
  match sp.homepage with
  | none => (st, none)
  | some homepageId =>
    let homePath := joinPath (outDir :: ([sp.key].map sanitize ++ [str "home"])) ++ str ".md"
    let st := recordEv (Event.mkdirs (pathParent homePath)) st
    let st := { st with
      fs := fsPut st.fs homePath (FileContent.textFile (str "# Migrated from Confluence:")) }
    dumpPage env sched outDir fuel homepageId [sp.key] homePath st

/-- `dump` (lines 190–200): iterate over the listed spaces, processing
    those matching the optional space filter; an uncaught error from a
    space aborts the whole run. -/
def dumpAll (env : Env) (sched : Nat → Bool) (outDir : Str) (fuel : Nat) :
    List SpaceData → Option Str → St → St × Option ExpErr
  | [], _, st => (st, none)
  | sp :: rest, filt, st =>
    if filt = none ∨ filt = some sp.key then
      match dumpSpace env sched outDir fuel sp st with
      | (st1, none) => dumpAll env sched outDir fuel rest filt st1
      | (st1, some e) => (st1, some e)
    else dumpAll env sched outDir fuel rest filt st

/-! ## replaceAll on paths -/

theorem take_isPre (n : Nat) (l : List Char) : l.take n <+: l :=
  ⟨l.drop n, List.take_append_drop n l⟩

theorem pre_refl (l : List Char) : l <+: l := ⟨[], List.append_nil l⟩

theorem isPrefixOf_iff_pre : ∀ (l₁ l₂ : List Char), l₁.isPrefixOf l₂ = true ↔ l₁ <+: l₂ := by
  intro l₁
  induction l₁ with
  | nil =>
    intro l₂
    constructor
    · intro _
      exact ⟨l₂, rfl⟩
    · intro _
      cases l₂ <;> rfl
  | cons a as ih =>
    intro l₂
    cases l₂ with
    | nil =>
      constructor
      · intro h; cases h
      · rintro ⟨t, ht⟩
        simp at ht
    | cons b bs =>
      simp only [List.isPrefixOf, Bool.and_eq_true, beq_iff_eq]
      rw [ih bs]
      constructor
      · rintro ⟨hab, t, ht⟩
        exact ⟨t, by rw [List.cons_append, hab, ht]⟩
      · rintro ⟨t, ht⟩
        rw [List.cons_append] at ht
        injection ht with h1 h2
        exact ⟨h1, t, h2⟩

theorem rev_pre_iff {l₁ l₂ : List Char} : l₁.reverse <+: l₂.reverse ↔ l₁ <:+ l₂ := by
  constructor
  · rintro ⟨t, ht⟩
    refine ⟨t.reverse, ?_⟩
    have h2 := congrArg List.reverse ht
    simpa [List.reverse_append] using h2
  · rintro ⟨t, ht⟩
    refine ⟨t.reverse, ?_⟩
    rw [← ht, List.reverse_append]

/-- No non-trivial suffix of `pat` is one of its own heads: rules out a
    leftmost occurrence of `pat` overlapping the final `pat` of
    `s ++ pat`.  Holds for `".doc"`. -/
def selfOverlapFree (pat : List Char) : Bool :=
  (List.range pat.length).all fun k => k = 0 || !((pat.drop k).isPrefixOf pat)

theorem containsSub_cons {pat : List Char} {c : Char} {cs : List Char}
    (h : containsSub pat (c :: cs) = false) :
    pat.isPrefixOf (c :: cs) = false ∧ containsSub pat cs = false := by
  have := h
  simp only [containsSub, Bool.or_eq_false_iff] at this
  exact this

theorem isPrefixOf_eq_false_of_not_containsSub {pat l : List Char}
    (hne : pat ≠ []) (h : containsSub pat l = false) : pat.isPrefixOf l = false := by
  cases l with
  | nil =>
    cases pat with
    | nil => exact absurd rfl hne
    | cons p ps => rfl
  | cons c cs => exact (containsSub_cons h).1

/-- A match of `pat` at the head of `x ++ pat` (`x` non-empty, no
    occurrence of `pat` inside `x`) would force a self-overlap of
    `pat`. -/
theorem isPrefixOf_append_pat_eq_false {pat x : List Char} (hne : pat ≠ [])
    (hov : selfOverlapFree pat = true) (hx : x ≠ [])
    (hsub : containsSub pat x = false) :
    pat.isPrefixOf (x ++ pat) = false := by
  by_contra hcon
  have hpre' : pat.isPrefixOf (x ++ pat) = true := by simpa using hcon
  have hpre : pat <+: x ++ pat := (isPrefixOf_iff_pre _ _).mp hpre'
  have hpat : pat = (x ++ pat).take pat.length := List.prefix_iff_eq_take.mp hpre
  by_cases hlen : pat.length ≤ x.length
  · -- the match lies entirely inside x, so pat occurs in x
    have htake : (x ++ pat).take pat.length = x.take pat.length := by
      rw [List.take_append_eq_append_take, Nat.sub_eq_zero_of_le hlen,
        List.take_zero, List.append_nil]
    have hp2 : pat = x.take pat.length := by
      conv_lhs => rw [hpat, htake]
    have hcontra : pat.isPrefixOf x = true := by
      rw [isPrefixOf_iff_pre]
      conv_lhs => rw [hp2]
      exact take_isPre _ _
    rw [isPrefixOf_eq_false_of_not_containsSub hne hsub] at hcontra
    cases hcontra
  · -- the match overlaps the final pat: a self-overlap of pat
    push_neg at hlen
    have hxlt : x.length < pat.length := hlen
    have hxpos : 0 < x.length := List.length_pos.mpr hx
    have htake : (x ++ pat).take pat.length = x ++ pat.take (pat.length - x.length) := by
      rw [List.take_append_eq_append_take, List.take_of_length_le (le_of_lt hxlt)]
    have hsplit : pat = x ++ pat.take (pat.length - x.length) := by
      conv_lhs => rw [hpat, htake]
    have hdrop : pat.drop x.length = pat.take (pat.length - x.length) := by
      conv_lhs => rw [hsplit]
      rw [List.drop_append_eq_append_drop, List.drop_of_length_le (le_refl x.length),
        Nat.sub_self, List.drop_zero, List.nil_append]
    have hpre2 : (pat.drop x.length).isPrefixOf pat = true := by
      rw [hdrop]
      exact (isPrefixOf_iff_pre _ _).mpr (take_isPre _ _)
    have hall := (List.all_eq_true.mp hov) x.length (by
      simp only [List.mem_range]
      exact hxlt)
    simp only [Bool.or_eq_true, decide_eq_true_eq, Bool.not_eq_true'] at hall
    rcases hall with h0 | h0
    · exact absurd h0 (Nat.pos_iff_ne_zero.mp hxpos)
    · rw [hpre2] at h0; cases h0

theorem replGo_append_pat {pat repl : List Char} (hne : pat ≠ [])
    (hov : selfOverlapFree pat = true) :
    ∀ (s : List Char) (fuel : Nat), s.length + 1 ≤ fuel →
      containsSub pat s = false →
      replGo pat repl fuel (s ++ pat) = s ++ repl := by
  intro s
  induction s with
  | nil =>
    intro fuel hf _
    cases pat with
    | nil => exact absurd rfl hne
    | cons p ps =>
      cases fuel with
      | zero => exact absurd hf (by omega)
      | succ f =>
        show replGo (p :: ps) repl (f + 1) ([] ++ (p :: ps)) = [] ++ repl
        simp only [List.nil_append]
        have hp : (p :: ps).isPrefixOf (p :: ps) = true :=
          (isPrefixOf_iff_pre _ _).mpr (pre_refl _)
        simp only [replGo, hp, if_true]
        rw [List.drop_length]
        cases f <;> simp [replGo]
  | cons c cs ih =>
    intro fuel hf hsub
    obtain ⟨hpre, hsub'⟩ := containsSub_cons hsub
    cases fuel with
    | zero => exact absurd hf (by omega)
    | succ f =>
      have hnp : pat.isPrefixOf ((c :: cs) ++ pat) = false :=
        isPrefixOf_append_pat_eq_false hne hov (by simp) hsub
      have hnp' : pat.isPrefixOf (c :: (cs ++ pat)) = false := by
        simpa [List.cons_append] using hnp
      show replGo pat repl (f + 1) (c :: (cs ++ pat)) = (c :: cs) ++ repl
      simp only [replGo, hnp', Bool.false_eq_true, if_false]
      rw [ih f (by simpa using Nat.lt_of_succ_le hf) hsub']
      rfl

theorem replaceAll_append_pat {pat repl s : List Char} (hne : pat ≠ [])
    (hov : selfOverlapFree pat = true) (hsub : containsSub pat s = false) :
    replaceAll pat repl (s ++ pat) = s ++ repl := by
  have hempty : pat.isEmpty = false := by
    cases pat with
    | nil => exact absurd rfl hne
    | cons p ps => rfl
  simp only [replaceAll, hempty, Bool.false_eq_true, if_false]
  have hlen : 0 < pat.length := List.length_pos.mpr hne
  apply replGo_append_pat hne hov
  · rw [List.length_append]; omega
  · exact hsub

theorem removeSuffix_append (pat x : List Char) (hne : pat ≠ []) :
    removeSuffix pat (x ++ pat) = x := by
  simp only [removeSuffix]
  have hsuf : pat.isSuffixOf (x ++ pat) = true := by
    rw [List.isSuffixOf_iff_suffix]
    exact List.suffix_append x pat
  have hemp : ¬ pat.isEmpty = true := by
    cases pat with
    | nil => exact absurd rfl hne
    | cons p ps => simp [List.isEmpty]
  rw [if_pos ⟨hemp, hsuf⟩, List.length_append, Nat.add_sub_cancel, List.take_left]

/-- With no stray occurrence of `".doc"` in the base path, the
    replace-all of line 111 behaves like an extension change. -/
theorem pageDocxPath_eq {outDir : Str} {parents : List Str} {title : Str}
    (h : containsSub (str ".doc") (pageBase outDir parents title) = false) :
    pageDocxPath outDir parents title = pageBase outDir parents title ++ str ".docx" := by
  unfold pageDocxPath pageDocPath
  exact replaceAll_append_pat (by decide) (by decide) h

/-- With no stray occurrence of `".doc"` in the base path, the
    replace-all of line 112 behaves like an extension change. -/
theorem pageMdPath_eq {outDir : Str} {parents : List Str} {title : Str}
    (h : containsSub (str ".doc") (pageBase outDir parents title) = false) :
    pageMdPath outDir parents title = pageBase outDir parents title ++ str ".md" := by
  unfold pageMdPath pageDocPath
  exact replaceAll_append_pat (by decide) (by decide) h

/-- The media path of line 113 is always the extension-stripped doc
    path. -/
theorem pageMediaPath_eq (outDir : Str) (parents : List Str) (title : Str) :
    pageMediaPath outDir parents title = pageBase outDir parents title :=
  removeSuffix_append _ _ (by decide)

/-! ## Basic state lemmas -/

theorem fsGet_fsPut (fs : FS) (p : Str) (c : FileContent) :
    fsGet (fsPut fs p c) p = some c := by
  simp [fsGet, fsPut]

theorem fsGet_fsPut_ne (fs : FS) {p q : Str} (c : FileContent) (h : ¬ q = p) :
    fsGet (fsPut fs p c) q = fsGet fs q := by
  simp only [fsGet, fsPut, List.find?]
  have : (decide (p = q)) = false := by
    simp only [decide_eq_false_iff_not]
    exact fun he => h he.symm
  simp [this]

@[simp] theorem recordEv_fs (e : Event) (st : St) : (recordEv e st).fs = st.fs := rfl

@[simp] theorem recordEv_seen (e : Event) (st : St) : (recordEv e st).seen = st.seen := rfl

@[simp] theorem recordEv_calls (e : Event) (st : St) : (recordEv e st).calls = st.calls := rfl

@[simp] theorem recordEv_trace (e : Event) (st : St) :
    (recordEv e st).trace = st.trace ++ [e] := rfl

@[simp] theorem homeAppendSt_seen (hp m : Str) (st : St) :
    (homeAppendSt hp m st).seen = st.seen := rfl

@[simp] theorem homeAppendSt_calls (hp m : Str) (st : St) :
    (homeAppendSt hp m st).calls = st.calls := rfl

@[simp] theorem homeAppendSt_trace (hp m : Str) (st : St) :
    (homeAppendSt hp m st).trace = st.trace := rfl

theorem homeAppendSt_fs (hp m : Str) (st : St) :
    (homeAppendSt hp m st).fs =
      fsPut (fsPut st.fs hp (FileContent.textFile
          (readTextAt st.fs hp ++ str "\n* [" ++ m ++ str "](" ++ m ++ str ")"))) hp
        (FileContent.textFile (replaceAll (pathParent hp ++ ['/']) []
          (readTextAt st.fs hp ++ str "\n* [" ++ m ++ str "](" ++ m ++ str ")"))) := rfl

theorem fsHas_fsPut_ne {fs : FS} {p q : Str} (c : FileContent) (h : ¬ q = p) :
    fsHas (fsPut fs p c) q = fsHas fs q := by
  rw [fsHas, fsHas, fsGet_fsPut_ne _ c h]

theorem fsHas_fsPut_self (fs : FS) (p : Str) (c : FileContent) :
    fsHas (fsPut fs p c) p = true := by
  rw [fsHas, fsGet_fsPut]
  rfl

/-! ### Stage execution lemmas -/

theorem stageDownload_skip {sched : Nat → Bool} {pid fileDoc : Str} {st : St}
    (h : fsHas st.fs fileDoc = true) :
    stageDownload sched pid fileDoc st = (st, none) := by
  simp [stageDownload, h]

theorem stageDownload_run {sched : Nat → Bool} {pid fileDoc : Str} {st : St}
    (h : fsHas st.fs fileDoc = false) (hs : sched st.calls = false) :
    stageDownload sched pid fileDoc st =
      ({ st with fs := fsPut st.fs fileDoc (FileContent.docFile pid),
                 trace := st.trace ++ [Event.download pid fileDoc],
                 calls := st.calls + 1 }, none) := by
  simp [stageDownload, h, downloadCall, extCall, hs]

theorem stageDownload_retry {sched : Nat → Bool} {pid fileDoc : Str} {st : St}
    (h : fsHas st.fs fileDoc = false) (h0 : sched st.calls = true)
    (h1 : sched (st.calls + 1) = false) :
    stageDownload sched pid fileDoc st =
      ({ st with fs := fsPut st.fs fileDoc (FileContent.docFile pid),
                 trace := st.trace ++ [Event.download pid fileDoc, Event.sleepFor 10,
                   Event.download pid fileDoc],
                 calls := st.calls + 2 }, none) := by
  simp [stageDownload, h, downloadCall, extCall, recordEv, h0, h1]

theorem stageDownload_fail {sched : Nat → Bool} {pid fileDoc : Str} {st : St}
    (h : fsHas st.fs fileDoc = false) (h0 : sched st.calls = true)
    (h1 : sched (st.calls + 1) = true) :
    stageDownload sched pid fileDoc st =
      ({ st with trace := st.trace ++ [Event.download pid fileDoc, Event.sleepFor 10,
                   Event.download pid fileDoc],
                 calls := st.calls + 2 }, some ExpErr.downloadFail) := by
  simp [stageDownload, h, downloadCall, extCall, recordEv, h0, h1]

theorem stageModernize_skip {sched : Nat → Bool} {pid fileDoc fileDocx : Str} {st : St}
    (h : fsHas st.fs fileDocx = true) :
    stageModernize sched pid fileDoc fileDocx st = (st, none) := by
  simp [stageModernize, h]

theorem stageModernize_run {sched : Nat → Bool} {pid fileDoc fileDocx : Str} {st : St}
    (h : fsHas st.fs fileDocx = false) (hs : sched st.calls = false) :
    stageModernize sched pid fileDoc fileDocx st =
      ({ st with fs := fsPut st.fs fileDocx (FileContent.docxFile (fsGet st.fs fileDoc)),
                 trace := st.trace ++ [Event.modernize fileDoc fileDocx],
                 calls := st.calls + 1 }, none) := by
  simp [stageModernize, h, modernizeCall, extCall, hs]

/-- The modernize retry (lines 136–141) re-runs the *download* stage
    before retrying the conversion. -/
theorem stageModernize_retry {sched : Nat → Bool} {pid fileDoc fileDocx : Str} {st : St}
    (h : fsHas st.fs fileDocx = false) (h0 : sched st.calls = true)
    (h1 : sched (st.calls + 1) = false) (h2 : sched (st.calls + 2) = false) :
    stageModernize sched pid fileDoc fileDocx st =
      ({ st with fs := fsPut (fsPut st.fs fileDoc (FileContent.docFile pid)) fileDocx
                   (FileContent.docxFile (some (FileContent.docFile pid))),
                 trace := st.trace ++ [Event.modernize fileDoc fileDocx, Event.sleepFor 10,
                   Event.download pid fileDoc, Event.modernize fileDoc fileDocx],
                 calls := st.calls + 3 }, none) := by
  simp [stageModernize, h, modernizeCall, downloadCall, extCall, recordEv, h0, h1, h2,
    fsGet_fsPut]

theorem stageModernize_retry_downloadFail {sched : Nat → Bool}
    {pid fileDoc fileDocx : Str} {st : St}
    (h : fsHas st.fs fileDocx = false) (h0 : sched st.calls = true)
    (h1 : sched (st.calls + 1) = true) :
    stageModernize sched pid fileDoc fileDocx st =
      ({ st with trace := st.trace ++ [Event.modernize fileDoc fileDocx, Event.sleepFor 10,
                   Event.download pid fileDoc],
                 calls := st.calls + 2 }, some ExpErr.downloadFail) := by
  simp [stageModernize, h, modernizeCall, downloadCall, extCall, recordEv, h0, h1]

theorem stageModernize_retry_fail {sched : Nat → Bool} {pid fileDoc fileDocx : Str} {st : St}
    (h : fsHas st.fs fileDocx = false) (h0 : sched st.calls = true)
    (h1 : sched (st.calls + 1) = false) (h2 : sched (st.calls + 2) = true) :
    stageModernize sched pid fileDoc fileDocx st =
      ({ st with fs := fsPut st.fs fileDoc (FileContent.docFile pid),
                 trace := st.trace ++ [Event.modernize fileDoc fileDocx, Event.sleepFor 10,
                   Event.download pid fileDoc, Event.modernize fileDoc fileDocx],
                 calls := st.calls + 3 }, some ExpErr.modernizeFail) := by
  simp [stageModernize, h, modernizeCall, downloadCall, extCall, recordEv, h0, h1, h2]

theorem stageConvert_skip {sched : Nat → Bool} {pid fileDoc fileDocx fileMd fileMedia : Str}
    {st : St} (h : fsHas st.fs fileMd = true) :
    stageConvert sched pid fileDoc fileDocx fileMd fileMedia st = (st, none) := by
  simp [stageConvert, h]

theorem stageConvert_run {sched : Nat → Bool} {pid fileDoc fileDocx fileMd fileMedia : Str}
    {st : St} (h : fsHas st.fs fileMd = false) (hs : sched st.calls = false) :
    stageConvert sched pid fileDoc fileDocx fileMd fileMedia st =
      ({ st with fs := fsPut st.fs fileMd
                   (FileContent.mdFile (fsGet st.fs fileDocx) fileMedia),
                 trace := st.trace ++ [Event.convert fileDocx fileMd fileMedia],
                 calls := st.calls + 1 }, none) := by
  simp [stageConvert, h, convertCall, extCall, hs]

/-- The convert retry (lines 151–161) re-runs download *and* modernize
    before retrying the conversion. -/
theorem stageConvert_retry {sched : Nat → Bool} {pid fileDoc fileDocx fileMd fileMedia : Str}
    {st : St} (h : fsHas st.fs fileMd = false) (h0 : sched st.calls = true)
    (h1 : sched (st.calls + 1) = false) (h2 : sched (st.calls + 2) = false)
    (h3 : sched (st.calls + 3) = false) :
    stageConvert sched pid fileDoc fileDocx fileMd fileMedia st =
      ({ st with fs := fsPut (fsPut (fsPut st.fs fileDoc (FileContent.docFile pid)) fileDocx
                   (FileContent.docxFile (some (FileContent.docFile pid)))) fileMd
                   (FileContent.mdFile (some (FileContent.docxFile
                     (some (FileContent.docFile pid)))) fileMedia),
                 trace := st.trace ++ [Event.convert fileDocx fileMd fileMedia,
                   Event.sleepFor 10, Event.download pid fileDoc,
                   Event.modernize fileDoc fileDocx, Event.convert fileDocx fileMd fileMedia],
                 calls := st.calls + 4 }, none) := by
  simp [stageConvert, h, convertCall, modernizeCall, downloadCall, extCall, recordEv,
    h0, h1, h2, h3, fsGet_fsPut]

theorem stageConvert_retry_fail {sched : Nat → Bool}
    {pid fileDoc fileDocx fileMd fileMedia : Str} {st : St}
    (h : fsHas st.fs fileMd = false) (h0 : sched st.calls = true)
    (h1 : sched (st.calls + 1) = false) (h2 : sched (st.calls + 2) = false)
    (h3 : sched (st.calls + 3) = true) :
    stageConvert sched pid fileDoc fileDocx fileMd fileMedia st =
      ({ st with fs := fsPut (fsPut st.fs fileDoc (FileContent.docFile pid)) fileDocx
                   (FileContent.docxFile (some (FileContent.docFile pid))),
                 trace := st.trace ++ [Event.convert fileDocx fileMd fileMedia,
                   Event.sleepFor 10, Event.download pid fileDoc,
                   Event.modernize fileDoc fileDocx, Event.convert fileDocx fileMd fileMedia],
                 calls := st.calls + 4 }, some ExpErr.convertFail) := by
  simp [stageConvert, h, convertCall, modernizeCall, downloadCall, extCall, recordEv,
    h0, h1, h2, h3, fsGet_fsPut]

theorem fsHas_fsPut_mono {fs : FS} {p q : Str} {c : FileContent}
    (h : fsHas fs q = true) : fsHas (fsPut fs p c) q = true := by
  by_cases hq : q = p
  · subst hq; exact fsHas_fsPut_self fs q c
  · rw [fsHas_fsPut_ne c hq]; exact h

theorem fsHas_homeAppendSt_mono (hp m : Str) {st : St} {q : Str}
    (h : fsHas st.fs q = true) : fsHas (homeAppendSt hp m st).fs q = true := by
  rw [homeAppendSt_fs]
  exact fsHas_fsPut_mono (fsHas_fsPut_mono h)

theorem fsHas_homeAppendSt_ne (hp m : Str) {st : St} {q : Str} (hq : ¬ q = hp) :
    fsHas (homeAppendSt hp m st).fs q = fsHas st.fs q := by
  rw [homeAppendSt_fs, fsHas_fsPut_ne _ hq, fsHas_fsPut_ne _ hq]

/-- `__dump_page` body on a page whose three output files all already
    exist: the three stages are skipped — no download, modernize or
    convert events, no fallible external calls — and only the index
    file and the seen-set change; the metadata and child-list fetches
    still happen. -/
theorem processPage_skip {env : Env} {sched : Nat → Bool} {outDir srcId : Str}
    {parents : List Str} {homePath : Str} {st : St}
    (hseen : ¬ srcId ∈ st.seen)
    (hdoc : fsHas st.fs (pageDocPath outDir parents (env.title srcId)) = true)
    (hdocx : fsHas st.fs (pageDocxPath outDir parents (env.title srcId)) = true)
    (hmd : fsHas st.fs (pageMdPath outDir parents (env.title srcId)) = true) :
    processPage env sched outDir srcId parents homePath st =
      ({ fs := fsPut (fsPut st.fs homePath (FileContent.textFile
            (readTextAt st.fs homePath ++ str "\n* [" ++
              pageMediaPath outDir parents (env.title srcId) ++ str "](" ++
              pageMediaPath outDir parents (env.title srcId) ++ str ")"))) homePath
            (FileContent.textFile (replaceAll (pathParent homePath ++ ['/']) []
              (readTextAt st.fs homePath ++ str "\n* [" ++
                pageMediaPath outDir parents (env.title srcId) ++ str "](" ++
                pageMediaPath outDir parents (env.title srcId) ++ str ")"))),
         seen := st.seen.insert (env.respId srcId),
         trace := st.trace ++ [Event.getPage srcId,
           Event.getChildren (env.respId srcId),
           Event.mkdirs (dirName (pageDocPath outDir parents (env.title srcId)))],
         calls := st.calls },
       none, env.children (env.respId srcId), parents.map sanitize ++ [env.title srcId]) := by
  simp only [processPage, if_neg hseen]
  set eP := pageMediaPath outDir parents (env.title srcId) with heP
  set dP := pageDocPath outDir parents (env.title srcId) with hdP
  set xP := pageDocxPath outDir parents (env.title srcId) with hxP
  set mP := pageMdPath outDir parents (env.title srcId) with hmP
  set pid := env.respId srcId with hpid
  set st0 := recordEv (Event.mkdirs (dirName dP))
    (recordEv (Event.getChildren pid) (recordEv (Event.getPage srcId) st)) with hst0
  set st1 := homeAppendSt homePath eP st0 with hst1
  have h1 : fsHas st1.fs dP = true := fsHas_homeAppendSt_mono homePath eP hdoc
  have h2 : fsHas st1.fs xP = true := fsHas_homeAppendSt_mono homePath eP hdocx
  have h3 : fsHas st1.fs mP = true := fsHas_homeAppendSt_mono homePath eP hmd
  simp only [stageDownload_skip h1, stageModernize_skip h2, stageConvert_skip h3]
  simp [hst1, hst0, homeAppendSt, readTextAt, List.append_assoc]

/-- `__dump_page` body on a fresh page (none of the three outputs
    exists) with every external call succeeding: index append, then
    download, modernize and convert in order, then the page is marked
    seen. -/
theorem processPage_fresh {env : Env} {sched : Nat → Bool} {outDir srcId : Str}
    {parents : List Str} {homePath : Str} {st : St}
    (hseen : ¬ srcId ∈ st.seen)
    (hdoc : fsHas st.fs (pageDocPath outDir parents (env.title srcId)) = false)
    (hdocx : fsHas st.fs (pageDocxPath outDir parents (env.title srcId)) = false)
    (hmd : fsHas st.fs (pageMdPath outDir parents (env.title srcId)) = false)
    (hq1 : ¬ pageDocPath outDir parents (env.title srcId) = homePath)
    (hq2 : ¬ pageDocxPath outDir parents (env.title srcId) = homePath)
    (hq3 : ¬ pageDocxPath outDir parents (env.title srcId) =
      pageDocPath outDir parents (env.title srcId))
    (hq4 : ¬ pageMdPath outDir parents (env.title srcId) = homePath)
    (hq5 : ¬ pageMdPath outDir parents (env.title srcId) =
      pageDocPath outDir parents (env.title srcId))
    (hq6 : ¬ pageMdPath outDir parents (env.title srcId) =
      pageDocxPath outDir parents (env.title srcId))
    (hs0 : sched st.calls = false) (hs1 : sched (st.calls + 1) = false)
    (hs2 : sched (st.calls + 2) = false) :
    processPage env sched outDir srcId parents homePath st =
      ({ fs := fsPut (fsPut (fsPut (fsPut (fsPut st.fs homePath (FileContent.textFile
            (readTextAt st.fs homePath ++ str "\n* [" ++
              pageMediaPath outDir parents (env.title srcId) ++ str "](" ++
              pageMediaPath outDir parents (env.title srcId) ++ str ")"))) homePath
            (FileContent.textFile (replaceAll (pathParent homePath ++ ['/']) []
              (readTextAt st.fs homePath ++ str "\n* [" ++
                pageMediaPath outDir parents (env.title srcId) ++ str "](" ++
                pageMediaPath outDir parents (env.title srcId) ++ str ")"))))
            (pageDocPath outDir parents (env.title srcId))
            (FileContent.docFile (env.respId srcId)))
            (pageDocxPath outDir parents (env.title srcId))
            (FileContent.docxFile (some (FileContent.docFile (env.respId srcId)))))
            (pageMdPath outDir parents (env.title srcId))
            (FileContent.mdFile (some (FileContent.docxFile
              (some (FileContent.docFile (env.respId srcId)))))
              (pageMediaPath outDir parents (env.title srcId))),
         seen := st.seen.insert (env.respId srcId),
         trace := st.trace ++ [Event.getPage srcId,
           Event.getChildren (env.respId srcId),
           Event.mkdirs (dirName (pageDocPath outDir parents (env.title srcId))),
           Event.download (env.respId srcId) (pageDocPath outDir parents (env.title srcId)),
           Event.modernize (pageDocPath outDir parents (env.title srcId))
             (pageDocxPath outDir parents (env.title srcId)),
           Event.convert (pageDocxPath outDir parents (env.title srcId))
             (pageMdPath outDir parents (env.title srcId))
             (pageMediaPath outDir parents (env.title srcId))],
         calls := st.calls + 3 },
       none, env.children (env.respId srcId), parents.map sanitize ++ [env.title srcId]) := by
  simp only [processPage, if_neg hseen]
  set eP := pageMediaPath outDir parents (env.title srcId) with heP
  set dP := pageDocPath outDir parents (env.title srcId) with hdP
  set xP := pageDocxPath outDir parents (env.title srcId) with hxP
  set mP := pageMdPath outDir parents (env.title srcId) with hmP
  set pid := env.respId srcId with hpid
  set st0 := recordEv (Event.mkdirs (dirName dP))
    (recordEv (Event.getChildren pid) (recordEv (Event.getPage srcId) st)) with hst0
  set st1 := homeAppendSt homePath eP st0 with hst1
  have hc1 : st1.calls = st.calls := rfl
  have h1 : fsHas st1.fs dP = false := by
    rw [hst1, fsHas_homeAppendSt_ne homePath eP hq1]
    exact hdoc
  have hs0' : sched st1.calls = false := by rw [hc1]; exact hs0
  rw [stageDownload_run h1 hs0']
  set st2 : St := ({ st1 with
    fs := fsPut st1.fs dP (FileContent.docFile pid),
    trace := st1.trace ++ [Event.download pid dP],
    calls := st1.calls + 1 } : St) with hst2
  simp only []
  have h2 : fsHas st2.fs xP = false := by
    rw [hst2]
    show fsHas (fsPut st1.fs dP (FileContent.docFile pid)) xP = false
    rw [fsHas_fsPut_ne _ hq3, hst1, fsHas_homeAppendSt_ne homePath eP hq2]
    exact hdocx
  have hs1' : sched st2.calls = false := by
    rw [hst2]
    show sched (st1.calls + 1) = false
    rw [hc1]
    exact hs1
  rw [stageModernize_run h2 hs1']
  set st3 : St := ({ st2 with
    fs := fsPut st2.fs xP (FileContent.docxFile (fsGet st2.fs dP)),
    trace := st2.trace ++ [Event.modernize dP xP], calls := st2.calls + 1 } : St) with hst3
  simp only []
  have h3 : fsHas st3.fs mP = false := by
    rw [hst3]
    show fsHas (fsPut st2.fs xP (FileContent.docxFile (fsGet st2.fs dP))) mP = false
    rw [fsHas_fsPut_ne _ hq6, hst2]
    show fsHas (fsPut st1.fs dP (FileContent.docFile pid)) mP = false
    rw [fsHas_fsPut_ne _ hq5, hst1, fsHas_homeAppendSt_ne homePath eP hq4]
    exact hmd
  have hs2' : sched st3.calls = false := by
    rw [hst3, hst2]
    show sched (st1.calls + 1 + 1) = false
    rw [hc1]
    exact hs2
  rw [stageConvert_run h3 hs2']
  have hgd : fsGet st2.fs dP = some (FileContent.docFile pid) := by
    rw [hst2]
    show fsGet (fsPut st1.fs dP (FileContent.docFile pid)) dP = _
    rw [fsGet_fsPut]
  have hgx : fsGet st3.fs xP = some (FileContent.docxFile (some (FileContent.docFile pid))) := by
    rw [hst3]
    show fsGet (fsPut st2.fs xP (FileContent.docxFile (fsGet st2.fs dP))) xP = _
    rw [fsGet_fsPut, hgd]
  simp only [hgx, hgd, fsGet_fsPut]
  simp [hst3, hst2, hst1, hst0, homeAppendSt, readTextAt, List.append_assoc, fsGet_fsPut]

theorem stageConvert_retry_downloadFail {sched : Nat → Bool}
    {pid fileDoc fileDocx fileMd fileMedia : Str} {st : St}
    (h : fsHas st.fs fileMd = false) (h0 : sched st.calls = true)
    (h1 : sched (st.calls + 1) = true) :
    stageConvert sched pid fileDoc fileDocx fileMd fileMedia st =
      ({ st with trace := st.trace ++ [Event.convert fileDocx fileMd fileMedia,
                   Event.sleepFor 10, Event.download pid fileDoc],
                 calls := st.calls + 2 }, some ExpErr.downloadFail) := by
  simp [stageConvert, h, convertCall, downloadCall, extCall, recordEv, h0, h1]

theorem stageConvert_retry_modernizeFail {sched : Nat → Bool}
    {pid fileDoc fileDocx fileMd fileMedia : Str} {st : St}
    (h : fsHas st.fs fileMd = false) (h0 : sched st.calls = true)
    (h1 : sched (st.calls + 1) = false) (h2 : sched (st.calls + 2) = true) :
    stageConvert sched pid fileDoc fileDocx fileMd fileMedia st =
      ({ st with fs := fsPut st.fs fileDoc (FileContent.docFile pid),
                 trace := st.trace ++ [Event.convert fileDocx fileMd fileMedia,
                   Event.sleepFor 10, Event.download pid fileDoc,
                   Event.modernize fileDoc fileDocx],
                 calls := st.calls + 3 }, some ExpErr.modernizeFail) := by
  simp [stageConvert, h, convertCall, modernizeCall, downloadCall, extCall, recordEv,
    h0, h1, h2]

/-! ### Visit extraction and pre-order traversal -/

/-- The page ids fetched over the network, in order: the projection of
    the trace to `getPage` events. -/
def visitsOf : List Event → List Str
  | [] => []
  | Event.getPage i :: es => i :: visitsOf es
  | _ :: es => visitsOf es

theorem visitsOf_append : ∀ (a b : List Event),
    visitsOf (a ++ b) = visitsOf a ++ visitsOf b := by
  intro a
  induction a with
  | nil => intro b; rfl
  | cons e es ih =>
    intro b
    cases e <;> simp [visitsOf, ih]

/-- The pre-order listing of the remote page tree reachable from `src`
    within the given recursion depth: the page itself, then the
    children in the order the API lists them, each expanded
    recursively.  (Modelled from the spec's description of the
    traversal order; compared below with the visit order the code
    produces.) -/
def preorderT (env : Env) : Nat → Str → List Str
  | 0, _ => []
  | fuel + 1, src =>
    src :: (env.children (env.respId src)).foldl
      (fun acc c => acc ++ preorderT env fuel c) []

theorem foldl_append_out (f : Str → List Str) :
    ∀ (l : List Str) (a : List Str),
      l.foldl (fun acc x => acc ++ f x) a = a ++ l.foldl (fun acc x => acc ++ f x) [] := by
  intro l
  induction l with
  | nil => intro a; simp
  | cons x xs ih =>
    intro a
    simp only [List.foldl_cons, List.nil_append]
    rw [ih (a ++ f x), ih (f x), List.append_assoc]

/-! ### Trace deltas: every stage only appends non-visit events -/

theorem stageDownload_delta (sched : Nat → Bool) (pid fileDoc : Str) (st : St) :
    ∃ d, ((stageDownload sched pid fileDoc st).1).trace = st.trace ++ d ∧
      visitsOf d = [] := by
  cases hf : fsHas st.fs fileDoc with
  | true => exact ⟨[], by rw [stageDownload_skip hf]; simp, rfl⟩
  | false =>
    cases h0 : sched st.calls with
    | false =>
      exact ⟨[Event.download pid fileDoc], by rw [stageDownload_run hf h0], rfl⟩
    | true =>
      cases h1 : sched (st.calls + 1) with
      | false =>
        exact ⟨[Event.download pid fileDoc, Event.sleepFor 10, Event.download pid fileDoc],
          by rw [stageDownload_retry hf h0 h1], rfl⟩
      | true =>
        exact ⟨[Event.download pid fileDoc, Event.sleepFor 10, Event.download pid fileDoc],
          by rw [stageDownload_fail hf h0 h1], rfl⟩

theorem stageModernize_delta (sched : Nat → Bool) (pid fileDoc fileDocx : Str) (st : St) :
    ∃ d, ((stageModernize sched pid fileDoc fileDocx st).1).trace = st.trace ++ d ∧
      visitsOf d = [] := by
  cases hf : fsHas st.fs fileDocx with
  | true => exact ⟨[], by rw [stageModernize_skip hf]; simp, rfl⟩
  | false =>
    cases h0 : sched st.calls with
    | false =>
      exact ⟨[Event.modernize fileDoc fileDocx], by rw [stageModernize_run hf h0], rfl⟩
    | true =>
      cases h1 : sched (st.calls + 1) with
      | true =>
        exact ⟨[Event.modernize fileDoc fileDocx, Event.sleepFor 10,
          Event.download pid fileDoc],
          by rw [stageModernize_retry_downloadFail hf h0 h1], rfl⟩
      | false =>
        cases h2 : sched (st.calls + 2) with
        | false =>
          exact ⟨[Event.modernize fileDoc fileDocx, Event.sleepFor 10,
            Event.download pid fileDoc, Event.modernize fileDoc fileDocx],
            by rw [stageModernize_retry hf h0 h1 h2], rfl⟩
        | true =>
          exact ⟨[Event.modernize fileDoc fileDocx, Event.sleepFor 10,
            Event.download pid fileDoc, Event.modernize fileDoc fileDocx],
            by rw [stageModernize_retry_fail hf h0 h1 h2], rfl⟩

theorem stageConvert_delta (sched : Nat → Bool)
    (pid fileDoc fileDocx fileMd fileMedia : Str) (st : St) :
    ∃ d, ((stageConvert sched pid fileDoc fileDocx fileMd fileMedia st).1).trace =
        st.trace ++ d ∧ visitsOf d = [] := by
  cases hf : fsHas st.fs fileMd with
  | true => exact ⟨[], by rw [stageConvert_skip hf]; simp, rfl⟩
  | false =>
    cases h0 : sched st.calls with
    | false =>
      exact ⟨[Event.convert fileDocx fileMd fileMedia],
        by rw [stageConvert_run hf h0], rfl⟩
    | true =>
      cases h1 : sched (st.calls + 1) with
      | true =>
        exact ⟨[Event.convert fileDocx fileMd fileMedia, Event.sleepFor 10,
          Event.download pid fileDoc],
          by rw [stageConvert_retry_downloadFail hf h0 h1], rfl⟩
      | false =>
        cases h2 : sched (st.calls + 2) with
        | true =>
          exact ⟨[Event.convert fileDocx fileMd fileMedia, Event.sleepFor 10,
            Event.download pid fileDoc, Event.modernize fileDoc fileDocx],
            by rw [stageConvert_retry_modernizeFail hf h0 h1 h2], rfl⟩
        | false =>
          cases h3 : sched (st.calls + 3) with
          | false =>
            exact ⟨[Event.convert fileDocx fileMd fileMedia, Event.sleepFor 10,
              Event.download pid fileDoc, Event.modernize fileDoc fileDocx,
              Event.convert fileDocx fileMd fileMedia],
              by rw [stageConvert_retry hf h0 h1 h2 h3], rfl⟩
          | true =>
            exact ⟨[Event.convert fileDocx fileMd fileMedia, Event.sleepFor 10,
              Event.download pid fileDoc, Event.modernize fileDoc fileDocx,
              Event.convert fileDocx fileMd fileMedia],
              by rw [stageConvert_retry_fail hf h0 h1 h2 h3], rfl⟩

def childFold (env : Env) (sched : Nat → Bool) (outDir : Str) (fuel : Nat)
    (parentsK : List Str) (homePath : Str) (cids : List Str) (acc : St × Option ExpErr) :
    St × Option ExpErr :=
  cids.foldl
    (fun acc cid =>
      match acc with
      | (stA, some e) => (stA, some e)
      | (stA, none) => dumpPage env sched outDir fuel cid parentsK homePath stA)
    acc

theorem dumpPage_succ (env : Env) (sched : Nat → Bool) (outDir : Str) (fuel : Nat)
    (srcId : Str) (parents : List Str) (homePath : Str) (st : St) :
    dumpPage env sched outDir (fuel + 1) srcId parents homePath st =
      match processPage env sched outDir srcId parents homePath st with
      | (st1, some e, _, _) => (st1, some e)
      | (st1, none, childIds, parentsK) =>
        childFold env sched outDir fuel parentsK homePath childIds (st1, none) := rfl

theorem childFold_error (env : Env) (sched : Nat → Bool) (outDir : Str) (fuel : Nat)
    (parentsK : List Str) (homePath : Str) :
    ∀ (cids : List Str) (stA : St) (e : ExpErr),
      childFold env sched outDir fuel parentsK homePath cids (stA, some e) = (stA, some e) := by
  intro cids
  induction cids with
  | nil => intro stA e; rfl
  | cons c cs ih => intro stA e; exact ih stA e

theorem childFold_cons (env : Env) (sched : Nat → Bool) (outDir : Str) (fuel : Nat)
    (parentsK : List Str) (homePath : Str) (c : Str) (cs : List Str) (stA : St) :
    childFold env sched outDir fuel parentsK homePath (c :: cs) (stA, none) =
      childFold env sched outDir fuel parentsK homePath cs
        (dumpPage env sched outDir fuel c parentsK homePath stA) := rfl

/-- The page body appends events whose only visit is the page itself:
    one `getPage` for `srcId`, followed by child-list, mkdirs and stage
    events, which contain no further `getPage`. -/
theorem processPage_delta (env : Env) (sched : Nat → Bool) (outDir srcId : Str)
    (parents : List Str) (homePath : Str) (st : St) (hseen : ¬ srcId ∈ st.seen) :
    ∃ d, ((processPage env sched outDir srcId parents homePath st).1).trace =
        st.trace ++ d ∧ visitsOf d = [srcId] := by
  simp only [processPage, if_neg hseen]
  set eP := pageMediaPath outDir parents (env.title srcId) with heP
  set dP := pageDocPath outDir parents (env.title srcId) with hdP
  set xP := pageDocxPath outDir parents (env.title srcId) with hxP
  set mP := pageMdPath outDir parents (env.title srcId) with hmP
  set pid := env.respId srcId with hpid
  set st1 := homeAppendSt homePath eP (recordEv (Event.mkdirs (dirName dP))
    (recordEv (Event.getChildren pid) (recordEv (Event.getPage srcId) st))) with hst1
  have ht1 : st1.trace = st.trace ++
      [Event.getPage srcId, Event.getChildren pid, Event.mkdirs (dirName dP)] := by
    rw [hst1]
    simp [List.append_assoc]
  obtain ⟨d1, hd1, hv1⟩ := stageDownload_delta sched pid dP st1
  rcases hD : stageDownload sched pid dP st1 with ⟨stD, rD⟩
  rw [hD] at hd1
  have hd1' : stD.trace = st1.trace ++ d1 := hd1
  cases rD with
  | some e =>
    simp only [hD]
    refine ⟨[Event.getPage srcId, Event.getChildren pid, Event.mkdirs (dirName dP)] ++ d1,
      ?_, ?_⟩
    · show stD.trace = _
      rw [hd1', ht1, List.append_assoc]
    · rw [visitsOf_append, hv1]
      rfl
  | none =>
    obtain ⟨d2, hd2, hv2⟩ := stageModernize_delta sched pid dP xP stD
    rcases hM : stageModernize sched pid dP xP stD with ⟨stM, rM⟩
    rw [hM] at hd2
    have hd2' : stM.trace = stD.trace ++ d2 := hd2
    cases rM with
    | some e =>
      simp only [hD, hM]
      refine ⟨[Event.getPage srcId, Event.getChildren pid, Event.mkdirs (dirName dP)] ++
        (d1 ++ d2), ?_, ?_⟩
      · show stM.trace = _
        rw [hd2', hd1', ht1]
        simp [List.append_assoc]
      · rw [visitsOf_append, visitsOf_append, hv1, hv2]
        rfl
    | none =>
      obtain ⟨d3, hd3, hv3⟩ := stageConvert_delta sched pid dP xP mP eP stM
      rcases hC : stageConvert sched pid dP xP mP eP stM with ⟨stC, rC⟩
      rw [hC] at hd3
      have hd3' : stC.trace = stM.trace ++ d3 := hd3
      cases rC with
      | some e =>
        simp only [hD, hM, hC]
        refine ⟨[Event.getPage srcId, Event.getChildren pid, Event.mkdirs (dirName dP)] ++
          (d1 ++ (d2 ++ d3)), ?_, ?_⟩
        · show stC.trace = _
          rw [hd3', hd2', hd1', ht1]
          simp [List.append_assoc]
        · rw [visitsOf_append, visitsOf_append, visitsOf_append, hv1, hv2, hv3]
          rfl
      | none =>
        simp only [hD, hM, hC]
        refine ⟨[Event.getPage srcId, Event.getChildren pid, Event.mkdirs (dirName dP)] ++
          (d1 ++ (d2 ++ d3)), ?_, ?_⟩
        · show stC.trace = _
          rw [hd3', hd2', hd1', ht1]
          simp [List.append_assoc]
        · rw [visitsOf_append, visitsOf_append, visitsOf_append, hv1, hv2, hv3]
          rfl

/-- A successful page body hands exactly the API's child list to the
    recursion. -/
theorem processPage_children {env : Env} {sched : Nat → Bool} {outDir srcId : Str}
    {parents : List Str} {homePath : Str} {st st1 : St} {k pk : List Str}
    (hP : processPage env sched outDir srcId parents homePath st = (st1, none, k, pk)) :
    k = env.children (env.respId srcId) := by
  by_cases hseen : srcId ∈ st.seen
  · simp [processPage, hseen] at hP
  · simp only [processPage, if_neg hseen] at hP
    rcases hD : stageDownload sched (env.respId srcId)
        (pageDocPath outDir parents (env.title srcId))
        (homeAppendSt homePath (pageMediaPath outDir parents (env.title srcId))
          (recordEv (Event.mkdirs (dirName (pageDocPath outDir parents (env.title srcId))))
            (recordEv (Event.getChildren (env.respId srcId))
              (recordEv (Event.getPage srcId) st)))) with ⟨stD, rD⟩
    rw [hD] at hP
    cases rD with
    | some e => simp at hP
    | none =>
      dsimp only at hP
      rcases hM : stageModernize sched (env.respId srcId)
          (pageDocPath outDir parents (env.title srcId))
          (pageDocxPath outDir parents (env.title srcId)) stD with ⟨stM, rM⟩
      rw [hM] at hP
      cases rM with
      | some e => simp at hP
      | none =>
        dsimp only at hP
        rcases hC : stageConvert sched (env.respId srcId)
            (pageDocPath outDir parents (env.title srcId))
            (pageDocxPath outDir parents (env.title srcId))
            (pageMdPath outDir parents (env.title srcId))
            (pageMediaPath outDir parents (env.title srcId)) stM with ⟨stC, rC⟩
        rw [hC] at hP
        cases rC with
        | some e => simp at hP
        | none =>
          dsimp only at hP
          simp only [Prod.mk.injEq] at hP
          exact hP.2.2.1.symm

/-- The tree walk visits pages in pre-order: on a successful run the
    trace grows by a block of events whose `getPage` projection is the
    pre-order listing of the tree. -/
theorem dumpPage_preorder (env : Env) (sched : Nat → Bool) (outDir : Str) :
    ∀ (fuel : Nat) (srcId : Str) (parents : List Str) (homePath : Str) (st st' : St),
      dumpPage env sched outDir fuel srcId parents homePath st = (st', none) →
      ∃ d, st'.trace = st.trace ++ d ∧ visitsOf d = preorderT env fuel srcId := by
  intro fuel
  induction fuel with
  | zero =>
    intro srcId parents homePath st st' h
    simp [dumpPage] at h
  | succ fuel ih =>
    have hcf : ∀ (cids pk : List Str) (hp : Str) (st1 st' : St),
        childFold env sched outDir fuel pk hp cids (st1, none) = (st', none) →
        ∃ d, st'.trace = st1.trace ++ d ∧
          visitsOf d = cids.foldl (fun acc c => acc ++ preorderT env fuel c) [] := by
      intro cids
      induction cids with
      | nil =>
        intro pk hp st1 st' h
        cases h
        exact ⟨[], by simp, rfl⟩
      | cons c cs ihc =>
        intro pk hp st1 st' h
        rw [childFold_cons] at h
        rcases hD : dumpPage env sched outDir fuel c pk hp st1 with ⟨stC, rC⟩
        rw [hD] at h
        cases rC with
        | some e =>
          rw [childFold_error] at h
          cases h
        | none =>
          obtain ⟨d1, ht1, hv1⟩ := ih c pk hp st1 stC hD
          obtain ⟨d2, ht2, hv2⟩ := ihc pk hp stC st' h
          refine ⟨d1 ++ d2, by rw [ht2, ht1, List.append_assoc], ?_⟩
          rw [visitsOf_append, hv1, hv2, List.foldl_cons, List.nil_append,
            foldl_append_out (preorderT env fuel) cs (preorderT env fuel c)]
    intro srcId parents homePath st st' h
    rw [dumpPage_succ] at h
    rcases hP : processPage env sched outDir srcId parents homePath st with ⟨st1, r, k, pk⟩
    rw [hP] at h
    cases r with
    | some e => cases h
    | none =>
      have hseen : ¬ srcId ∈ st.seen := by
        intro hmem
        rw [show processPage env sched outDir srcId parents homePath st =
          (st, some ExpErr.duplicate, [], []) from by simp [processPage, hmem]] at hP
        simp at hP
      obtain ⟨d0, ht0, hv0⟩ := processPage_delta env sched outDir srcId parents homePath
        st hseen
      rw [hP] at ht0
      have ht0' : st1.trace = st.trace ++ d0 := ht0
      have hk : k = env.children (env.respId srcId) := processPage_children hP
      obtain ⟨d2, ht2, hv2⟩ := hcf k pk homePath st1 st' h
      refine ⟨d0 ++ d2, by rw [ht2, ht0', List.append_assoc], ?_⟩
      rw [visitsOf_append, hv0, hv2, hk]
      rfl

/-- The child loop visits the children in list order, each expanded in
    pre-order. -/
theorem childFold_preorder (env : Env) (sched : Nat → Bool) (outDir : Str) (fuel : Nat) :
    ∀ (cids pk : List Str) (hp : Str) (st1 st' : St),
      childFold env sched outDir fuel pk hp cids (st1, none) = (st', none) →
      ∃ d, st'.trace = st1.trace ++ d ∧
        visitsOf d = cids.foldl (fun acc c => acc ++ preorderT env fuel c) [] := by
  intro cids
  induction cids with
  | nil =>
    intro pk hp st1 st' h
    cases h
    exact ⟨[], by simp, rfl⟩
  | cons c cs ihc =>
    intro pk hp st1 st' h
    rw [childFold_cons] at h
    rcases hD : dumpPage env sched outDir fuel c pk hp st1 with ⟨stC, rC⟩
    rw [hD] at h
    cases rC with
    | some e =>
      rw [childFold_error] at h
      cases h
    | none =>
      obtain ⟨d1, ht1, hv1⟩ := dumpPage_preorder env sched outDir fuel c pk hp st1 stC hD
      obtain ⟨d2, ht2, hv2⟩ := ihc pk hp stC st' h
      refine ⟨d1 ++ d2, by rw [ht2, ht1, List.append_assoc], ?_⟩
      rw [visitsOf_append, hv1, hv2, List.foldl_cons, List.nil_append,
        foldl_append_out (preorderT env fuel) cs (preorderT env fuel c)]

/-! ## Claims -/

/-- **C10**: a space whose homepage field is absent is skipped: the
    space dump writes no files, leaves the whole program state
    (including the seen-set) unchanged and reports no error, and the
    run continues with the remaining spaces. -/
theorem claim_C10_space_without_homepage_skipped
    (env : Env) (sched : Nat → Bool) (outDir : Str) (fuel : Nat)
    (sp : SpaceData) (rest : List SpaceData) (filt : Option Str) (st : St)
    (h : sp.homepage = none) :
    dumpSpace env sched outDir fuel sp st = (st, none) ∧
      dumpAll env sched outDir fuel (sp :: rest) filt st =
        dumpAll env sched outDir fuel rest filt st := by
  have h1 : dumpSpace env sched outDir fuel sp st = (st, none) := by
    simp [dumpSpace, h]
  refine ⟨h1, ?_⟩
  by_cases hf : filt = none ∨ filt = some sp.key
  · simp [dumpAll, hf, h1]
  · simp [dumpAll, hf]

/-- Witness for C10 at a concrete space without a homepage. -/
theorem claim_C10_witness :
    (SpaceData.mk (str "K") none).homepage = none ∧
      dumpSpace { title := fun _ => [], respId := fun i => i, children := fun _ => [] }
          (fun _ => false) (str "out") 3 (SpaceData.mk (str "K") none)
          { fs := [], seen := [], trace := [], calls := 0 } =
        ({ fs := [], seen := [], trace := [], calls := 0 }, none) :=
  ⟨rfl,
    (claim_C10_space_without_homepage_skipped
      { title := fun _ => [], respId := fun i => i, children := fun _ => [] }
      (fun _ => false) (str "out") 3 (SpaceData.mk (str "K") none) [] none
      { fs := [], seen := [], trace := [], calls := 0 } rfl).1⟩

/-- **C1**: invoking the per-page exporter on a page id already in the
    seen-set raises the duplicate-page error immediately: the state
    (file system, trace, seen-set) is returned unchanged — so nothing
    was fetched, no file was written or modified, and no output was
    produced — the surrounding recursion returns the same error, and an
    erroring space dump aborts the remaining-space loop without any
    retry. -/
theorem claim_C1_duplicate_id_aborts
    (env : Env) (sched : Nat → Bool) (outDir : Str) (fuel : Nat)
    (srcId : Str) (parents : List Str) (homePath : Str) (st : St)
    (h : srcId ∈ st.seen) :
    processPage env sched outDir srcId parents homePath st =
        (st, some ExpErr.duplicate, [], []) ∧
      dumpPage env sched outDir (fuel + 1) srcId parents homePath st =
        (st, some ExpErr.duplicate) ∧
      (∀ (sp : SpaceData) (rest : List SpaceData) (filt : Option Str) (stE : St)
          (e : ExpErr),
        (filt = none ∨ filt = some sp.key) →
        dumpSpace env sched outDir fuel sp st = (stE, some e) →
        dumpAll env sched outDir fuel (sp :: rest) filt st = (stE, some e)) := by
  have h1 : processPage env sched outDir srcId parents homePath st =
      (st, some ExpErr.duplicate, [], []) := by
    simp [processPage, h]
  refine ⟨h1, ?_, ?_⟩
  · rw [dumpPage_succ, h1]
  · intro sp rest filt stE e hf hd
    simp [dumpAll, hf, hd]

/-- Witness for C1: page id `"9"` is already in the seen-set. -/
theorem claim_C1_witness :
    (str "9") ∈ (St.mk [] [str "9"] [] 0).seen ∧
      processPage { title := fun _ => [], respId := fun i => i, children := fun _ => [] }
          (fun _ => false) (str "out") (str "9") [] (str "h") (St.mk [] [str "9"] [] 0) =
        (St.mk [] [str "9"] [] 0, some ExpErr.duplicate, [], []) :=
  ⟨by decide,
    (claim_C1_duplicate_id_aborts
      { title := fun _ => [], respId := fun i => i, children := fun _ => [] }
      (fun _ => false) (str "out") 0 (str "9") [] (str "h")
      (St.mk [] [str "9"] [] 0) (by decide)).1⟩

/-! ### Concrete fixtures for witnesses and counterexamples -/

/-- One page `"1"` titled `Root` with no children. -/
def envRoot : Env :=
  { title := fun _ => str "Root", respId := fun i => i, children := fun _ => [] }

/-- Failure schedule on which every external call succeeds. -/
def schedOk : Nat → Bool := fun _ => false

/-- Failure schedule on which exactly the first external call fails. -/
def schedFail0 : Nat → Bool := fun n => n == 0

/-- State of a finished earlier run of page `Root`: all three outputs
    and the space index exist. -/
def stPre : St :=
  { fs := [(str "out/K/Root.doc", FileContent.docFile (str "1")),
           (str "out/K/Root.docx", FileContent.docxFile none),
           (str "out/K/Root.md", FileContent.mdFile none (str "out/K/Root")),
           (str "out/K/home.md", FileContent.textFile (str "# Migrated from Confluence:"))],
    seen := [], trace := [], calls := 0 }

/-- State in which only the `.doc` of page `Root` and the index exist. -/
def stDoc : St :=
  { fs := [(str "out/K/Root.doc", FileContent.docFile (str "1")),
           (str "out/K/home.md", FileContent.textFile (str "# Migrated from Confluence:"))],
    seen := [], trace := [], calls := 0 }

/-- **C2 counterexample**: re-running the exporter on page `Root`, whose
    `.doc`, `.docx` and `.md` all exist, still records the `get_page_by_id`
    and `get_child_id_list` network calls and rewrites the index file
    `out/K/home.md` (appending a link entry), so the run is not free of
    network calls and does not leave all files under the output
    directory unchanged. -/
theorem claim_C2_counterexample :
    (dumpPage envRoot schedOk (str "out") 2 (str "1") [str "K"] (str "out/K/home.md")
        stPre).1.trace =
      [Event.getPage (str "1"), Event.getChildren (str "1"), Event.mkdirs (str "out/K")] ∧
    readTextAt (dumpPage envRoot schedOk (str "out") 2 (str "1") [str "K"]
        (str "out/K/home.md") stPre).1.fs (str "out/K/home.md") =
      str "# Migrated from Confluence:\n* [Root](Root)" ∧
    readTextAt stPre.fs (str "out/K/home.md") = str "# Migrated from Confluence:" ∧
    ¬ readTextAt (dumpPage envRoot schedOk (str "out") 2 (str "1") [str "K"]
        (str "out/K/home.md") stPre).1.fs (str "out/K/home.md") =
      readTextAt stPre.fs (str "out/K/home.md") := by decide

/-- **C2 (amended)**: on a page whose three output files already exist
    (and with no children), the three stages are skipped — the trace
    gains only the metadata fetch, the child-list fetch and the
    `makedirs` call, and the fallible-call counter is unchanged — every
    file other than the space index is unchanged, but the exporter
    still performs those two network calls, appends a link entry to the
    index file, and marks the page seen. -/
theorem claim_C2_rerun_skips_stages_but_fetches_and_appends
    (env : Env) (sched : Nat → Bool) (outDir : Str) (fuel : Nat) (srcId : Str)
    (parents : List Str) (homePath : Str) (st : St)
    (hseen : ¬ srcId ∈ st.seen)
    (hdoc : fsHas st.fs (pageDocPath outDir parents (env.title srcId)) = true)
    (hdocx : fsHas st.fs (pageDocxPath outDir parents (env.title srcId)) = true)
    (hmd : fsHas st.fs (pageMdPath outDir parents (env.title srcId)) = true)
    (hkids : env.children (env.respId srcId) = []) :
    ∃ st', dumpPage env sched outDir (fuel + 1) srcId parents homePath st = (st', none) ∧
      st'.trace = st.trace ++ [Event.getPage srcId, Event.getChildren (env.respId srcId),
        Event.mkdirs (dirName (pageDocPath outDir parents (env.title srcId)))] ∧
      st'.calls = st.calls ∧
      (∀ q : Str, ¬ q = homePath → fsGet st'.fs q = fsGet st.fs q) ∧
      fsGet st'.fs homePath = some (FileContent.textFile
        (replaceAll (pathParent homePath ++ ['/']) []
          (readTextAt st.fs homePath ++ str "\n* [" ++
            pageMediaPath outDir parents (env.title srcId) ++ str "](" ++
            pageMediaPath outDir parents (env.title srcId) ++ str ")"))) ∧
      st'.seen = st.seen.insert (env.respId srcId) := by
  rw [dumpPage_succ, processPage_skip hseen hdoc hdocx hmd, hkids]
  refine ⟨_, rfl, rfl, rfl, ?_, ?_, rfl⟩
  · intro q hq
    show fsGet (fsPut (fsPut st.fs homePath _) homePath _) q = fsGet st.fs q
    rw [fsGet_fsPut_ne _ _ hq, fsGet_fsPut_ne _ _ hq]
  · show fsGet (fsPut (fsPut st.fs homePath _) homePath _) homePath = _
    rw [fsGet_fsPut]

/-- Witness for the amended C2 on the concrete finished state. -/
theorem claim_C2_witness :
    (dumpPage envRoot schedOk (str "out") 1 (str "1") [str "K"] (str "out/K/home.md")
        stPre).2 = none ∧
    (dumpPage envRoot schedOk (str "out") 1 (str "1") [str "K"] (str "out/K/home.md")
        stPre).1.calls = stPre.calls := by
  obtain ⟨st', heq, -, hcalls, -, -, -⟩ :=
    claim_C2_rerun_skips_stages_but_fetches_and_appends envRoot schedOk (str "out") 0
      (str "1") [str "K"] (str "out/K/home.md") stPre (by decide) (by decide) (by decide)
      (by decide) rfl
  rw [heq, hcalls]
  exact ⟨rfl, rfl⟩

/-- **C3 counterexample**: with the `.doc` of page `Root` already on
    disk and the first modernize call failing, the retry does not
    re-run only the failed stage and its dependents: after the sleep it
    re-runs the *download* stage (an earlier stage, whose output file
    already existed) before retrying modernize. -/
theorem claim_C3_counterexample :
    fsHas stDoc.fs (str "out/K/Root.doc") = true ∧
    (stageModernize schedFail0 (str "1") (str "out/K/Root.doc") (str "out/K/Root.docx")
        stDoc).1.trace =
      [Event.modernize (str "out/K/Root.doc") (str "out/K/Root.docx"), Event.sleepFor 10,
       Event.download (str "1") (str "out/K/Root.doc"),
       Event.modernize (str "out/K/Root.doc") (str "out/K/Root.docx")] ∧
    (stageModernize schedFail0 (str "1") (str "out/K/Root.doc") (str "out/K/Root.docx")
        stDoc).2 = none := by decide

/-- **C3 (amended)**: on the first failure of a stage the exporter
    sleeps 10 seconds and retries exactly once, but the retry re-runs
    the whole pipeline prefix ending at the failed stage: a failed
    download retries only the download; a failed modernize re-runs
    download (an earlier stage) and then modernize; a failed convert
    re-runs download, modernize and then convert; stages after the
    failed one are not run inside the retry.  If a call during the
    retry fails, the resulting error propagates out of the page body
    and aborts `dumpPage` (no skip-and-continue). -/
theorem claim_C3_retry_reruns_earlier_stages
    (sched : Nat → Bool) (pid fileDoc fileDocx fileMd fileMedia : Str) (st : St) :
    (fsHas st.fs fileDoc = false → sched st.calls = true → sched (st.calls + 1) = false →
      stageDownload sched pid fileDoc st =
        ({ st with fs := fsPut st.fs fileDoc (FileContent.docFile pid),
                   trace := st.trace ++ [Event.download pid fileDoc, Event.sleepFor 10,
                     Event.download pid fileDoc],
                   calls := st.calls + 2 }, none)) ∧
    (fsHas st.fs fileDocx = false → sched st.calls = true → sched (st.calls + 1) = false →
      sched (st.calls + 2) = false →
      stageModernize sched pid fileDoc fileDocx st =
        ({ st with fs := fsPut (fsPut st.fs fileDoc (FileContent.docFile pid)) fileDocx
                     (FileContent.docxFile (some (FileContent.docFile pid))),
                   trace := st.trace ++ [Event.modernize fileDoc fileDocx, Event.sleepFor 10,
                     Event.download pid fileDoc, Event.modernize fileDoc fileDocx],
                   calls := st.calls + 3 }, none)) ∧
    (fsHas st.fs fileMd = false → sched st.calls = true → sched (st.calls + 1) = false →
      sched (st.calls + 2) = false → sched (st.calls + 3) = false →
      stageConvert sched pid fileDoc fileDocx fileMd fileMedia st =
        ({ st with fs := fsPut (fsPut (fsPut st.fs fileDoc (FileContent.docFile pid))
                     fileDocx (FileContent.docxFile (some (FileContent.docFile pid)))) fileMd
                     (FileContent.mdFile (some (FileContent.docxFile
                       (some (FileContent.docFile pid)))) fileMedia),
                   trace := st.trace ++ [Event.convert fileDocx fileMd fileMedia,
                     Event.sleepFor 10, Event.download pid fileDoc,
                     Event.modernize fileDoc fileDocx,
                     Event.convert fileDocx fileMd fileMedia],
                   calls := st.calls + 4 }, none)) ∧
    (fsHas st.fs fileDocx = false → sched st.calls = true → sched (st.calls + 1) = true →
      stageModernize sched pid fileDoc fileDocx st =
        ({ st with trace := st.trace ++ [Event.modernize fileDoc fileDocx, Event.sleepFor 10,
                     Event.download pid fileDoc],
                   calls := st.calls + 2 }, some ExpErr.downloadFail)) ∧
    (∀ (env : Env) (outDir srcId : Str) (parents : List Str) (homePath : Str)
        (fuel : Nat) (st0 st1 : St) (e : ExpErr) (k pk : List Str),
      processPage env sched outDir srcId parents homePath st0 = (st1, some e, k, pk) →
      dumpPage env sched outDir (fuel + 1) srcId parents homePath st0 = (st1, some e)) := by
  refine ⟨?_, ?_, ?_, ?_, ?_⟩
  · intro h h0 h1
    exact stageDownload_retry h h0 h1
  · intro h h0 h1 h2
    exact stageModernize_retry h h0 h1 h2
  · intro h h0 h1 h2 h3
    exact stageConvert_retry h h0 h1 h2 h3
  · intro h h0 h1
    exact stageModernize_retry_downloadFail h h0 h1
  · intro env outDir srcId parents homePath fuel st0 st1 e k pk hp
    rw [dumpPage_succ, hp]

/-- Witness for the amended C3: the concrete failing-modernize run. -/
theorem claim_C3_witness :
    (stageModernize schedFail0 (str "1") (str "out/K/Root.doc") (str "out/K/Root.docx")
        stDoc).2 = none := by
  have h := (claim_C3_retry_reruns_earlier_stages schedFail0 (str "1")
    (str "out/K/Root.doc") (str "out/K/Root.docx") (str "out/K/Root.md")
    (str "out/K/Root") stDoc).2.1 (by decide) (by decide) (by decide) (by decide)
  rw [h]

/-- **C4 counterexample**: the title `".."` contains a path-traversal
    sequence, but its sanitized form is the empty string, so the
    sanitizer output is not always non-empty. -/
theorem claim_C4_counterexample :
    ¬ (∀ t : Str, hasTraversal t = true →
        hasTraversal (sanitize t) = false ∧ sanitize t ≠ []) := by
  intro h
  have h2 := h (str "..") (by decide)
  exact h2.2 (by decide)

/-- **C4 (amended)**: for every title containing a path-traversal
    sequence (`..` or a bare separator), the sanitizer output contains
    no such sequence and no path separator — but it may be empty. -/
theorem claim_C4_sanitize_removes_traversal (t : Str) (_h : hasTraversal t = true) :
    hasTraversal (sanitize t) = false :=
  hasTraversal_sanitize t

/-- Witness for the amended C4 on the title `"a/../b"`. -/
theorem claim_C4_witness :
    hasTraversal (str "a/../b") = true ∧ hasTraversal (sanitize (str "a/../b")) = false :=
  ⟨by decide, claim_C4_sanitize_removes_traversal (str "a/../b") (by decide)⟩

/-! ### Path disequality helpers -/

theorem append_ne_of_ne {u v : Str} (base : Str) (h : ¬ u = v) :
    ¬ base ++ u = base ++ v :=
  fun he => h (List.append_cancel_left he)

theorem isSuffixOf_append_of_le {pat u : List Char} (x : List Char)
    (h : pat.length ≤ u.length) :
    pat.isSuffixOf (x ++ u) = pat.isSuffixOf u := by
  apply Bool.eq_iff_iff.mpr
  rw [List.isSuffixOf_iff_suffix, List.isSuffixOf_iff_suffix]
  constructor
  · intro hs
    rw [← rev_pre_iff] at hs ⊢
    rw [List.reverse_append] at hs
    have hteq := List.prefix_iff_eq_take.mp hs
    rw [List.take_append_eq_append_take, Nat.sub_eq_zero_of_le (by simpa using h),
      List.take_zero, List.append_nil] at hteq
    conv_lhs => rw [hteq]
    exact take_isPre _ _
  · intro hs
    exact hs.trans (List.suffix_append x u)

theorem fsGet_eq_none_of_not_has {fs : FS} {p : Str} (h : fsHas fs p = false) :
    fsGet fs p = none := by
  cases hg : fsGet fs p with
  | none => rfl
  | some c => rw [fsHas, hg] at h; cases h

/-- One page `"1"` titled `Root` with a single child `"2"` titled
    `Child` (itself childless). -/
def envParent : Env :=
  { title := fun i => if i = str "1" then str "Root" else str "Child",
    respId := fun i => i,
    children := fun i => if i = str "1" then [str "2"] else [] }

/-- One childless page `"1"` whose title contains `".doc"`. -/
def envXdoc : Env :=
  { title := fun _ => str "x.doc", respId := fun i => i, children := fun _ => [] }

/-- A fresh output directory holding only the space index. -/
def stHome : St :=
  { fs := [(str "out/K/home.md", FileContent.textFile (str "# Migrated from Confluence:"))],
    seen := [], trace := [], calls := 0 }

/-- **C5 counterexample**: page `Root` has one child, yet the exporter
    writes its markup to `out/K/Root.md` (named after the sanitized
    title) and creates no file `out/K/Root/home.md`: the child-page
    case does not use the name `"home"`. -/
theorem claim_C5_counterexample :
    envParent.children (str "1") = [str "2"] ∧
    (dumpPage envParent schedOk (str "out") 3 (str "1") [str "K"] (str "out/K/home.md")
        stHome).2 = none ∧
    (fsGet (dumpPage envParent schedOk (str "out") 3 (str "1") [str "K"]
        (str "out/K/home.md") stHome).1.fs (str "out/K/Root/home.md")).isNone = true ∧
    (fsGet (dumpPage envParent schedOk (str "out") 3 (str "1") [str "K"]
        (str "out/K/home.md") stHome).1.fs (str "out/K/Root.md")).isSome = true := by decide

/-- **C5 (amended)**: also for a page with one or more children, the
    page's own markup file is written at
    `<ancestors>/<sanitized title>.md` — the same naming as for a leaf —
    and no `home`-named markup file is created inside a directory named
    after the title (children are merely nested under that directory
    name).  (Hypotheses: fresh outputs, distinct paths, `.doc` not a
    substring of the base path, all calls succeed.) -/
theorem claim_C5_children_no_home_file
    (env : Env) (sched : Nat → Bool) (outDir srcId : Str) (parents : List Str)
    (homePath : Str) (st : St)
    (_hk : ¬ env.children (env.respId srcId) = [])
    (hseen : ¬ srcId ∈ st.seen)
    (hdoc : fsHas st.fs (pageDocPath outDir parents (env.title srcId)) = false)
    (hdocx : fsHas st.fs (pageDocxPath outDir parents (env.title srcId)) = false)
    (hmd : fsHas st.fs (pageMdPath outDir parents (env.title srcId)) = false)
    (hq1 : ¬ pageDocPath outDir parents (env.title srcId) = homePath)
    (hq2 : ¬ pageDocxPath outDir parents (env.title srcId) = homePath)
    (hq4 : ¬ pageMdPath outDir parents (env.title srcId) = homePath)
    (hs0 : sched st.calls = false) (hs1 : sched (st.calls + 1) = false)
    (hs2 : sched (st.calls + 2) = false)
    (hbase : containsSub (str ".doc") (pageBase outDir parents (env.title srcId)) = false)
    (hhp : ¬ pageBase outDir parents (env.title srcId) ++ str "/home.md" = homePath)
    (hnew : fsGet st.fs (pageBase outDir parents (env.title srcId) ++ str "/home.md") = none) :
    ∃ st', processPage env sched outDir srcId parents homePath st =
        (st', none, env.children (env.respId srcId), parents.map sanitize ++ [env.title srcId]) ∧
      (fsGet st'.fs (pageBase outDir parents (env.title srcId) ++ str ".md")).isSome = true ∧
      fsGet st'.fs (pageBase outDir parents (env.title srcId) ++ str "/home.md") = none := by
  have hq3 : ¬ pageDocxPath outDir parents (env.title srcId) =
      pageDocPath outDir parents (env.title srcId) := by
    rw [pageDocxPath_eq hbase]
    exact append_ne_of_ne _ (by decide)
  have hq5 : ¬ pageMdPath outDir parents (env.title srcId) =
      pageDocPath outDir parents (env.title srcId) := by
    rw [pageMdPath_eq hbase]
    exact append_ne_of_ne _ (by decide)
  have hq6 : ¬ pageMdPath outDir parents (env.title srcId) =
      pageDocxPath outDir parents (env.title srcId) := by
    rw [pageMdPath_eq hbase, pageDocxPath_eq hbase]
    exact append_ne_of_ne _ (by decide)
  refine ⟨_, processPage_fresh hseen hdoc hdocx hmd hq1 hq2 hq3 hq4 hq5 hq6 hs0 hs1 hs2,
    ?_, ?_⟩
  · dsimp only
    rw [← pageMdPath_eq hbase, fsGet_fsPut]
    rfl
  · have hqmd : ¬ pageBase outDir parents (env.title srcId) ++ str "/home.md" =
        pageMdPath outDir parents (env.title srcId) := by
      rw [pageMdPath_eq hbase]
      exact append_ne_of_ne _ (by decide)
    have hqdocx : ¬ pageBase outDir parents (env.title srcId) ++ str "/home.md" =
        pageDocxPath outDir parents (env.title srcId) := by
      rw [pageDocxPath_eq hbase]
      exact append_ne_of_ne _ (by decide)
    have hqdoc : ¬ pageBase outDir parents (env.title srcId) ++ str "/home.md" =
        pageDocPath outDir parents (env.title srcId) :=
      append_ne_of_ne _ (by decide)
    dsimp only
    rw [fsGet_fsPut_ne _ _ hqmd, fsGet_fsPut_ne _ _ hqdocx, fsGet_fsPut_ne _ _ hqdoc,
      fsGet_fsPut_ne _ _ hhp, fsGet_fsPut_ne _ _ hhp]
    exact hnew

/-- Witness for the amended C5: page `Root` with one child. -/
theorem claim_C5_witness :
    (fsGet (processPage envParent schedOk (str "out") (str "1") [str "K"]
        (str "out/K/home.md") stHome).1.fs (str "out/K/Root.md")).isSome = true := by
  obtain ⟨st', heq, hmd, -⟩ :=
    claim_C5_children_no_home_file envParent schedOk (str "out") (str "1") [str "K"]
      (str "out/K/home.md") stHome (by decide) (by decide) (by decide) (by decide)
      (by decide) (by decide) (by decide) (by decide) rfl rfl rfl (by decide) (by decide)
      rfl
  rw [heq]
  exact hmd

/-- **C6 counterexample**: for the childless page titled `"x.doc"`
    (sanitized unchanged), the markup file written is
    `out/K/x.md.md` — produced by the replace-all of `".doc"` over the
    whole path — not `out/K/x.doc.md`, so the file is not named after
    the sanitized title. -/
theorem claim_C6_counterexample :
    envXdoc.children (str "1") = [] ∧
    sanitize (str "x.doc") = str "x.doc" ∧
    (dumpPage envXdoc schedOk (str "out") 2 (str "1") [str "K"] (str "out/K/home.md")
        stHome).2 = none ∧
    (fsGet (dumpPage envXdoc schedOk (str "out") 2 (str "1") [str "K"]
        (str "out/K/home.md") stHome).1.fs (str "out/K/x.doc.md")).isNone = true ∧
    (fsGet (dumpPage envXdoc schedOk (str "out") 2 (str "1") [str "K"]
        (str "out/K/home.md") stHome).1.fs (str "out/K/x.md.md")).isSome = true := by decide

/-- **C6 (amended)**: a childless page whose base path contains no
    stray `".doc"` creates exactly one new markup (`.md`) file, at
    `<out>/<sanitized ancestors>/<sanitized title>.md` (never named
    `home`); the pre-existing index file is modified, not created. -/
theorem claim_C6_leaf_creates_single_md
    (env : Env) (sched : Nat → Bool) (outDir : Str) (fuel : Nat) (srcId : Str)
    (parents : List Str) (homePath : Str) (st : St)
    (hk : env.children (env.respId srcId) = [])
    (hseen : ¬ srcId ∈ st.seen)
    (hdoc : fsHas st.fs (pageDocPath outDir parents (env.title srcId)) = false)
    (hdocx : fsHas st.fs (pageDocxPath outDir parents (env.title srcId)) = false)
    (hmd : fsHas st.fs (pageMdPath outDir parents (env.title srcId)) = false)
    (hq1 : ¬ pageDocPath outDir parents (env.title srcId) = homePath)
    (hq2 : ¬ pageDocxPath outDir parents (env.title srcId) = homePath)
    (hq4 : ¬ pageMdPath outDir parents (env.title srcId) = homePath)
    (hs0 : sched st.calls = false) (hs1 : sched (st.calls + 1) = false)
    (hs2 : sched (st.calls + 2) = false)
    (hbase : containsSub (str ".doc") (pageBase outDir parents (env.title srcId)) = false)
    (hhome : (fsGet st.fs homePath).isSome = true) :
    ∃ st', dumpPage env sched outDir (fuel + 1) srcId parents homePath st = (st', none) ∧
      fsGet st.fs (pageBase outDir parents (env.title srcId) ++ str ".md") = none ∧
      (fsGet st'.fs (pageBase outDir parents (env.title srcId) ++ str ".md")).isSome = true ∧
      (∀ q : Str, fsGet st.fs q = none → (fsGet st'.fs q).isSome = true →
        (str ".md").isSuffixOf q = true →
        q = pageBase outDir parents (env.title srcId) ++ str ".md") := by
  have hq3 : ¬ pageDocxPath outDir parents (env.title srcId) =
      pageDocPath outDir parents (env.title srcId) := by
    rw [pageDocxPath_eq hbase]
    exact append_ne_of_ne _ (by decide)
  have hq5 : ¬ pageMdPath outDir parents (env.title srcId) =
      pageDocPath outDir parents (env.title srcId) := by
    rw [pageMdPath_eq hbase]
    exact append_ne_of_ne _ (by decide)
  have hq6 : ¬ pageMdPath outDir parents (env.title srcId) =
      pageDocxPath outDir parents (env.title srcId) := by
    rw [pageMdPath_eq hbase, pageDocxPath_eq hbase]
    exact append_ne_of_ne _ (by decide)
  have hrun := @processPage_fresh env sched outDir srcId parents homePath st
    hseen hdoc hdocx hmd hq1 hq2 hq3 hq4 hq5 hq6 hs0 hs1 hs2
  rw [dumpPage_succ, hrun, hk]
  refine ⟨_, rfl, ?_, ?_, ?_⟩
  · rw [← pageMdPath_eq hbase]
    exact fsGet_eq_none_of_not_has hmd
  · dsimp only
    rw [← pageMdPath_eq hbase, fsGet_fsPut]
    rfl
  · intro q h0 h1 h2
    by_cases hqm : q = pageMdPath outDir parents (env.title srcId)
    · rw [hqm, pageMdPath_eq hbase]
    · exfalso
      by_cases hqx : q = pageDocxPath outDir parents (env.title srcId)
      · rw [hqx, pageDocxPath_eq hbase,
          isSuffixOf_append_of_le _ (by decide)] at h2
        exact absurd h2 (by decide)
      · by_cases hqd : q = pageDocPath outDir parents (env.title srcId)
        · rw [hqd] at h2
          have : pageDocPath outDir parents (env.title srcId) =
              pageBase outDir parents (env.title srcId) ++ str ".doc" := rfl
          rw [this, isSuffixOf_append_of_le _ (by decide)] at h2
          exact absurd h2 (by decide)
        · by_cases hqh : q = homePath
          · rw [hqh] at h0
            rw [h0] at hhome
            cases hhome
          · dsimp only at h1
            rw [fsGet_fsPut_ne _ _ hqm, fsGet_fsPut_ne _ _ hqx, fsGet_fsPut_ne _ _ hqd,
              fsGet_fsPut_ne _ _ hqh, fsGet_fsPut_ne _ _ hqh, h0] at h1
            cases h1

/-- Witness for the amended C6 on the concrete leaf page `Root`. -/
theorem claim_C6_witness :
    (dumpPage envRoot schedOk (str "out") 1 (str "1") [str "K"] (str "out/K/home.md")
        stHome).2 = none := by
  obtain ⟨st', heq, -, -, -⟩ :=
    claim_C6_leaf_creates_single_md envRoot schedOk (str "out") 0 (str "1") [str "K"]
      (str "out/K/home.md") stHome rfl (by decide) (by decide) (by decide) (by decide)
      (by decide) (by decide) (by decide) rfl rfl rfl (by decide) (by decide)
  rw [heq]

/-- **C7 counterexample**: for the page titled `"x.doc"`, the `.docx`
    sibling of the claimed layout, `out/K/x.doc.docx`, is not created;
    the replace-all of line 111 produces `out/K/x.docx.docx` instead. -/
theorem claim_C7_counterexample :
    (dumpPage envXdoc schedOk (str "out") 2 (str "1") [str "K"] (str "out/K/home.md")
        stHome).2 = none ∧
    (fsGet (dumpPage envXdoc schedOk (str "out") 2 (str "1") [str "K"]
        (str "out/K/home.md") stHome).1.fs (str "out/K/x.doc.docx")).isNone = true ∧
    (fsGet (dumpPage envXdoc schedOk (str "out") 2 (str "1") [str "K"]
        (str "out/K/home.md") stHome).1.fs (str "out/K/x.docx.docx")).isSome = true := by
  decide

/-- **C7 (amended)**: provided `".doc"` does not occur inside the base
    path, the per-page layout is as specified: the page writes
    `<base>.doc`, `<base>.docx` and `<base>.md` with
    `<base> = <out_dir>/<sanitized ancestors>/<sanitized title>`, the
    media folder is the markup path with its extension stripped, and a
    space dump creates its single index file `home.md` at the space
    root `<out_dir>/<sanitized key>` before walking the tree. -/
theorem claim_C7_output_layout
    (env : Env) (sched : Nat → Bool) (outDir srcId : Str) (parents : List Str)
    (homePath : Str) (st : St) (sp : SpaceData) (hid : Str) (fuel : Nat)
    (hseen : ¬ srcId ∈ st.seen)
    (hdoc : fsHas st.fs (pageDocPath outDir parents (env.title srcId)) = false)
    (hdocx : fsHas st.fs (pageDocxPath outDir parents (env.title srcId)) = false)
    (hmd : fsHas st.fs (pageMdPath outDir parents (env.title srcId)) = false)
    (hq1 : ¬ pageDocPath outDir parents (env.title srcId) = homePath)
    (hq2 : ¬ pageDocxPath outDir parents (env.title srcId) = homePath)
    (hq4 : ¬ pageMdPath outDir parents (env.title srcId) = homePath)
    (hs0 : sched st.calls = false) (hs1 : sched (st.calls + 1) = false)
    (hs2 : sched (st.calls + 2) = false)
    (hbase : containsSub (str ".doc") (pageBase outDir parents (env.title srcId)) = false)
    (hsp : sp.homepage = some hid) :
    pageDocPath outDir parents (env.title srcId) =
      pageBase outDir parents (env.title srcId) ++ str ".doc" ∧
    pageDocxPath outDir parents (env.title srcId) =
      pageBase outDir parents (env.title srcId) ++ str ".docx" ∧
    pageMdPath outDir parents (env.title srcId) =
      pageBase outDir parents (env.title srcId) ++ str ".md" ∧
    pageMediaPath outDir parents (env.title srcId) =
      removeSuffix (str ".md") (pageMdPath outDir parents (env.title srcId)) ∧
    (∃ st', processPage env sched outDir srcId parents homePath st =
        (st', none, env.children (env.respId srcId), parents.map sanitize ++ [env.title srcId]) ∧
      (fsGet st'.fs (pageDocPath outDir parents (env.title srcId))).isSome = true ∧
      (fsGet st'.fs (pageDocxPath outDir parents (env.title srcId))).isSome = true ∧
      (fsGet st'.fs (pageMdPath outDir parents (env.title srcId))).isSome = true) ∧
    (∃ stIdx, dumpSpace env sched outDir fuel sp st =
        dumpPage env sched outDir fuel hid [sp.key]
          (joinPath (outDir :: ([sp.key].map sanitize ++ [str "home"])) ++ str ".md") stIdx ∧
      fsGet stIdx.fs (joinPath (outDir :: ([sp.key].map sanitize ++ [str "home"])) ++ str ".md") =
        some (FileContent.textFile (str "# Migrated from Confluence:"))) := by
  have hq3 : ¬ pageDocxPath outDir parents (env.title srcId) =
      pageDocPath outDir parents (env.title srcId) := by
    rw [pageDocxPath_eq hbase]
    exact append_ne_of_ne _ (by decide)
  have hq5 : ¬ pageMdPath outDir parents (env.title srcId) =
      pageDocPath outDir parents (env.title srcId) := by
    rw [pageMdPath_eq hbase]
    exact append_ne_of_ne _ (by decide)
  have hq6 : ¬ pageMdPath outDir parents (env.title srcId) =
      pageDocxPath outDir parents (env.title srcId) := by
    rw [pageMdPath_eq hbase, pageDocxPath_eq hbase]
    exact append_ne_of_ne _ (by decide)
  refine ⟨rfl, pageDocxPath_eq hbase, pageMdPath_eq hbase, ?_, ?_, ?_⟩
  · rw [pageMdPath_eq hbase, pageMediaPath_eq, removeSuffix_append _ _ (by decide)]
  · refine ⟨_, processPage_fresh hseen hdoc hdocx hmd hq1 hq2 hq3 hq4 hq5 hq6 hs0 hs1 hs2,
      ?_, ?_, ?_⟩
    · dsimp only
      rw [fsGet_fsPut_ne _ _ (fun he => hq5 he.symm),
        fsGet_fsPut_ne _ _ (fun he => hq3 he.symm), fsGet_fsPut]
      rfl
    · dsimp only
      rw [fsGet_fsPut_ne _ _ (fun he => hq6 he.symm), fsGet_fsPut]
      rfl
    · dsimp only
      rw [fsGet_fsPut]
      rfl
  · refine ⟨{ fs := fsPut st.fs
                      (joinPath (outDir :: ([sp.key].map sanitize ++ [str "home"])) ++ str ".md")
                      (FileContent.textFile (str "# Migrated from Confluence:")),
               seen := st.seen,
               trace := st.trace ++ [Event.mkdirs (pathParent
                 (joinPath (outDir :: ([sp.key].map sanitize ++ [str "home"])) ++ str ".md"))],
               calls := st.calls }, ?_, ?_⟩
    · simp [dumpSpace, hsp, recordEv]
    · rw [fsGet_fsPut]

/-- Witness for the amended C7 at the concrete page `Root`. -/
theorem claim_C7_witness :
    pageDocxPath (str "out") [str "K"] (envRoot.title (str "1")) =
      pageBase (str "out") [str "K"] (envRoot.title (str "1")) ++ str ".docx" :=
  (claim_C7_output_layout envRoot schedOk (str "out") (str "1") [str "K"]
    (str "out/K/home.md") stHome (SpaceData.mk (str "K") (some (str "1"))) (str "1") 2
    (by decide) (by decide) (by decide) (by decide) (by decide) (by decide) (by decide)
    rfl rfl rfl (by decide) rfl).2.1

/-- **C8**: the tree walker visits pages in pre-order: on every
    error-free run the trace grows by a block whose `getPage`
    projection is the pre-order listing of the tree (page before
    descendants, children in API order), and the page's own body — the
    metadata fetch and the three pipeline stages — completes,
    contributing exactly its own visit, before any child is visited.
    Determinism given fixed API responses is intrinsic: `dumpPage` is a
    function of the environment, the failure schedule and the state. -/
theorem claim_C8_preorder_traversal
    (env : Env) (sched : Nat → Bool) (outDir : Str) (fuel : Nat) (srcId : Str)
    (parents : List Str) (homePath : Str) (st st' : St)
    (h : dumpPage env sched outDir (fuel + 1) srcId parents homePath st = (st', none)) :
    (∃ d, st'.trace = st.trace ++ d ∧ visitsOf d = preorderT env (fuel + 1) srcId) ∧
    (∃ st1 pk d0 d2,
      processPage env sched outDir srcId parents homePath st =
        (st1, none, env.children (env.respId srcId), pk) ∧
      st1.trace = st.trace ++ d0 ∧ visitsOf d0 = [srcId] ∧
      st'.trace = st.trace ++ (d0 ++ d2) ∧
      visitsOf d2 = (env.children (env.respId srcId)).foldl
        (fun acc c => acc ++ preorderT env fuel c) []) := by
  refine ⟨dumpPage_preorder env sched outDir (fuel + 1) srcId parents homePath st st' h,
    ?_⟩
  rw [dumpPage_succ] at h
  rcases hP : processPage env sched outDir srcId parents homePath st with ⟨st1, r, k, pk⟩
  rw [hP] at h
  cases r with
  | some e => cases h
  | none =>
    have hseen : ¬ srcId ∈ st.seen := by
      intro hmem
      rw [show processPage env sched outDir srcId parents homePath st =
        (st, some ExpErr.duplicate, [], []) from by simp [processPage, hmem]] at hP
      simp at hP
    obtain ⟨d0, ht0, hv0⟩ := processPage_delta env sched outDir srcId parents homePath
      st hseen
    rw [hP] at ht0
    have ht0' : st1.trace = st.trace ++ d0 := ht0
    have hk : k = env.children (env.respId srcId) := processPage_children hP
    subst hk
    obtain ⟨d2, ht2, hv2⟩ := childFold_preorder env sched outDir fuel
      (env.children (env.respId srcId)) pk homePath st1 st' h
    exact ⟨st1, pk, d0, d2, rfl, ht0', hv0,
      by rw [ht2, ht0', List.append_assoc], hv2⟩


/-- Witness for C8 on the two-page tree `Root → Child`. -/
theorem claim_C8_witness :
    ∃ d, (dumpPage envParent schedOk (str "out") 3 (str "1") [str "K"]
        (str "out/K/home.md") stHome).1.trace = stHome.trace ++ d ∧
      visitsOf d = preorderT envParent 3 (str "1") :=
  (claim_C8_preorder_traversal envParent schedOk (str "out") 2 (str "1") [str "K"]
    (str "out/K/home.md") stHome
    (dumpPage envParent schedOk (str "out") 3 (str "1") [str "K"] (str "out/K/home.md")
      stHome).1
    (Prod.ext rfl (by decide))).1

/-- **C9**: the filename sanitizer is idempotent:
    `sanitize (sanitize t) = sanitize t` for every title. -/
theorem claim_C9_sanitize_idempotent (t : Str) : sanitize (sanitize t) = sanitize t :=
  sanitize_sanitize t

end CME
